import Mathlib

/-!
# Quantized CNN digit classifier: reference path and batch orchestration

A shallow embedding of `cnn_classifier.cpp` (software reference path) and of the
host side of `main.cpp` (accelerator-offloaded path).

Conventions of the embedding:
* a C `int` is an `Int`; every `int` addition and multiplication whose result can
  leave the signed 32-bit range is wrapped with `wrap32` (two's complement);
* a `short` is an `Int` (in `[-32768, 32767]` where a theorem says so), an
  `unsigned char` a `Nat` (at most `255` where a theorem says so);
* an array reached through a pointer is a function from the index to the element; a host
  buffer reached with an `int` offset (`images`, `input_images`, `output_guesses`) is indexed
  by `Int`, relative to its base address;
* byte counts of buffer transfers are `size_t` products and are taken without overflow;
* a counted `for` loop is `forLoop`, a `for` loop with `&& status` is `forWhile`.
-/

namespace CNN

/-! ## Machine integers -/

/-- Two's complement reduction of an integer to the signed 32-bit range. -/
def wrap32 (z : Int) : Int := (z + 2147483648) % 4294967296 - 2147483648

/-- Membership in the signed 32-bit range. -/
def inInt32 (z : Int) : Prop := -2147483648 ≤ z ∧ z ≤ 2147483647

instance (z : Int) : Decidable (inInt32 z) := by unfold inInt32; infer_instance

/-! ## Loops -/

/-- The loop `for (int i = 0; i < n; i++) s = body i s`. -/
def forLoop {σ : Type} (n : Nat) (body : Nat → σ → σ) (s : σ) : σ :=
  match n with
  | 0 => s
  | k + 1 => body k (forLoop k body s)

/-- The loop `for (int i = i0; i < i0 + fuel && cond s; i++) s = body i s`. -/
def forWhile {σ : Type} (i0 fuel : Nat) (cond : σ → Bool) (body : Nat → σ → σ) (s : σ) : σ :=
  match fuel with
  | 0 => s
  | k + 1 => if cond s then forWhile (i0 + 1) k cond body (body i0 s) else s

/-! ## Constants of `cnn_classifier.cpp` -/

def CONV_MAT_DIM : Nat := 5
def CNN1_FEATURES : Nat := 32
def CNN1_INPUT_DIM : Nat := 28
def MAX_POOL_SIZE : Nat := 2
def POOL1_OUTPUT_DIM : Nat := CNN1_INPUT_DIM / MAX_POOL_SIZE
def NN_OUTPUT_SIZE : Nat := POOL1_OUTPUT_DIM * POOL1_OUTPUT_DIM * CNN1_FEATURES
def CONV_MAT_WEIGHTS : Nat := CONV_MAT_DIM * CONV_MAT_DIM + 1
/-- The `NUM_DIGITS` of `shared/defines.h`; `main.cpp` repeats it as `10`. -/
def NUM_DIGITS : Nat := 10

/-! ## The convolution / pool loop of `classify` -/

/-- One pass of the body of the `cx` loop: the guarded tap accumulation
`feature_accum += CNN_W[c*26 + cy*5 + cx] * frame[y+cy-2][x+cx-2]`. -/
def tapStep (CNN_W : Nat → Int) (frame : Nat → Nat → Nat) (c y x cy cx : Nat)
    (feature_accum : Int) : Int :=
  if y + cy ≥ CONV_MAT_DIM / 2 ∧ y + cy < CNN1_INPUT_DIM + CONV_MAT_DIM / 2 ∧
      x + cx ≥ CONV_MAT_DIM / 2 ∧ x + cx < CNN1_INPUT_DIM + CONV_MAT_DIM / 2 then
    wrap32 (feature_accum +
      wrap32 (CNN_W (c * CONV_MAT_WEIGHTS + cy * CONV_MAT_DIM + cx) *
        (frame (y + cy - CONV_MAT_DIM / 2) (x + cx - CONV_MAT_DIM / 2) : Int)))
  else feature_accum

/-- The accumulator after `cy` complete rows of taps and `cx` taps of the next row. -/
def accumAt (CNN_W : Nat → Int) (frame : Nat → Nat → Nat) (c y x cy cx : Nat) : Int :=
  forLoop cx (fun i acc => tapStep CNN_W frame c y x cy i acc)
    (forLoop cy (fun j acc => forLoop CONV_MAT_DIM (fun i a => tapStep CNN_W frame c y x j i a) acc)
      (CNN_W (c * CONV_MAT_WEIGHTS + 25)))

/-- The value of `feature_accum` when the two tap loops have finished. -/
def featureAccum (CNN_W : Nat → Int) (frame : Nat → Nat → Nat) (c y x : Nat) : Int :=
  forLoop CONV_MAT_DIM
    (fun cy acc => forLoop CONV_MAT_DIM (fun cx a => tapStep CNN_W frame c y x cy cx a) acc)
    (CNN_W (c * CONV_MAT_WEIGHTS + 25))

/-- The array `cnn_output[32][14][14]`. -/
abbrev FeatureMaps := Nat → Nat → Nat → Int

/-- The assignment `cnn_output[c][y][x] = v`. -/
def setCell (out : FeatureMaps) (c y x : Nat) (v : Int) : FeatureMaps :=
  fun c1 y1 x1 => if c1 = c ∧ y1 = y ∧ x1 = x then v else out c1 y1 x1

/-- The max-pool statement executed for pixel `(y, x)` of feature `c`. -/
def poolStep (CNN_W : Nat → Int) (frame : Nat → Nat → Nat) (c y x : Nat)
    (cnn_output : FeatureMaps) : FeatureMaps :=
  let feature_accum := featureAccum CNN_W frame c y x
  if (x &&& (MAX_POOL_SIZE - 1)) = 0 ∧ (y &&& (MAX_POOL_SIZE - 1)) = 0 then
    setCell cnn_output c (y / MAX_POOL_SIZE) (x / MAX_POOL_SIZE)
      (if feature_accum > 0 then feature_accum else 0)
  else
    setCell cnn_output c (y / MAX_POOL_SIZE) (x / MAX_POOL_SIZE)
      (if feature_accum > cnn_output c (y / MAX_POOL_SIZE) (x / MAX_POOL_SIZE) then feature_accum
       else cnn_output c (y / MAX_POOL_SIZE) (x / MAX_POOL_SIZE))

/-- The `x` loop for row `y` of feature `c`. -/
def rowLoop (CNN_W : Nat → Int) (frame : Nat → Nat → Nat) (c y : Nat)
    (cnn_output : FeatureMaps) : FeatureMaps :=
  forLoop CNN1_INPUT_DIM (fun x out => poolStep CNN_W frame c y x out) cnn_output

/-- The `y` loop for feature `c`. -/
def featureLoop (CNN_W : Nat → Int) (frame : Nat → Nat → Nat) (c : Nat)
    (cnn_output : FeatureMaps) : FeatureMaps :=
  forLoop CNN1_INPUT_DIM (fun y out => rowLoop CNN_W frame c y out) cnn_output

/-- The first CNN layer: the `c` loop, started on the uninitialised local array
`cnn_output` (whose prior content is `out0`). -/
def cnnLayer (CNN_W : Nat → Int) (frame : Nat → Nat → Nat) (out0 : FeatureMaps) : FeatureMaps :=
  forLoop CNN1_FEATURES (fun c out => featureLoop CNN_W frame c out) out0

/-! ## The fully-connected neuron `fc` -/

/-- The statement `neuron += W[k++] * cnn_output[c][y][x]` on the state `(neuron, k)`. -/
def fcStep (cnn_output : FeatureMaps) (W : Nat → Int) (c y x : Nat) (s : Int × Nat) : Int × Nat :=
  (wrap32 (s.1 + wrap32 (W s.2 * cnn_output c y x)), s.2 + 1)

/-- The `y` and `x` loops of `fc` for feature `c`. -/
def fcFeature (cnn_output : FeatureMaps) (W : Nat → Int) (c : Nat) (s : Int × Nat) : Int × Nat :=
  forLoop POOL1_OUTPUT_DIM
    (fun y s1 => forLoop POOL1_OUTPUT_DIM (fun x s2 => fcStep cnn_output W c y x s2) s1) s

/-- The state `(neuron, k)` of `fc` after `c` complete features, `y` complete rows of the
next feature and `x` elements of the next row. -/
def fcAt (cnn_output : FeatureMaps) (W : Nat → Int) (c y x : Nat) : Int × Nat :=
  forLoop x (fun i s => fcStep cnn_output W c y i s)
    (forLoop y
      (fun j s1 => forLoop POOL1_OUTPUT_DIM (fun i s2 => fcStep cnn_output W c j i s2) s1)
      (forLoop c (fun d s => fcFeature cnn_output W d s) (0, 0)))

/-- The function `fc`: the three loops, then `return neuron + W[k]`. -/
def fc (cnn_output : FeatureMaps) (W : Nat → Int) : Int :=
  let s := forLoop CNN1_FEATURES (fun c s => fcFeature cnn_output W c s) (0, 0)
  wrap32 (s.1 + W s.2)

/-! ## The argmax loop of `classify` -/

/-- The body of the `j` loop on the state `(max_score, current_digit_guess)`;
`current_digit_guess` is an `unsigned char`. -/
def argmaxStep (score : Nat → Int) (j : Nat) (s : Int × Nat) : Int × Nat :=
  if score j > s.1 then (score j, j % 256) else s

/-- The digit guessed from the ten scores, `max_score` starting at `sentinel`
(`VERY_NEGATIVE_NUMBER`, defined in `shared/defines.h`). -/
def argmaxLoop (sentinel : Int) (score : Nat → Int) : Nat :=
  (forLoop NUM_DIGITS (fun j s => argmaxStep score j s) (sentinel, 0)).2

/-- The score of digit `j` in `classify`: `fc(cnn_output, FC_W + (NN_OUTPUT_SIZE+1)*j)`. -/
def digitScore (cnn_output : FeatureMaps) (FC_W : Nat → Int) (j : Nat) : Int :=
  fc cnn_output (fun k => FC_W ((NN_OUTPUT_SIZE + 1) * j + k))

/-! ## The reference program `classify` of `cnn_classifier.cpp` -/

/-- What the excluded loaders hand to `classify`. -/
structure Loaders where
  /-- Result of `parse_MNIST_images`. -/
  n_items : Int
  /-- Result of `parse_MNIST_labels`. -/
  n_labels : Int
  /-- Whether `read_int16_weights_file` succeeds on `fc_weights_<i>`. -/
  fcRead : Nat → Bool
  /-- Whether `read_int16_weights_file` succeeds on `cnn_weights`. -/
  cnnRead : Bool
  /-- The buffer `images`. -/
  images : Int → Nat
  /-- The buffer `labels`. -/
  labels : Nat → Nat
  /-- The buffer `FC_W`. -/
  FC_W : Nat → Int
  /-- The buffer `CNN_W`. -/
  CNN_W : Nat → Int

/-- The locals `pixel`, `n_correct`, `items_tested` of `classify`. -/
structure PredState where
  pixel : Int
  n_correct : Int
  items_tested : Int
deriving DecidableEq, Repr

/-- The frame loading loops: `frame[y][x] = images[pixel++]`, on the state `(frame, pixel)`. -/
def loadFrame (images : Int → Nat) (frame0 : Nat → Nat → Nat) (pixel : Int) :
    (Nat → Nat → Nat) × Int :=
  forLoop CNN1_INPUT_DIM
    (fun y s1 => forLoop CNN1_INPUT_DIM
      (fun x s2 => ((fun y1 x1 => if y1 = y ∧ x1 = x then images s2.2 else s2.1 y1 x1),
        wrap32 (s2.2 + 1))) s1)
    (frame0, pixel)

/-- The body of the prediction loop for item `i`; `frame0` and `out0` are the prior
contents of the uninitialised locals `frame` and `cnn_output`. -/
def predictStep (sentinel : Int) (L : Loaders) (frame0 : Nat → Nat → Nat) (out0 : FeatureMaps)
    (i : Nat) (s : PredState) : PredState :=
  let fr := loadFrame L.images frame0 s.pixel
  let cnn_output := cnnLayer L.CNN_W fr.1 out0
  let current_digit_guess := argmaxLoop sentinel (fun j => digitScore cnn_output L.FC_W j)
  { pixel := fr.2
    n_correct := if current_digit_guess = L.labels i then wrap32 (s.n_correct + 1) else s.n_correct
    items_tested := wrap32 (s.items_tested + 1) }

/-- The flag `status` when the prediction loop is reached. -/
def setupStatus (L : Loaders) : Bool :=
  let status1 := if L.n_items ≤ 0 then false else true
  let status2 := if status1 && (L.n_items != L.n_labels) then false else status1
  let status3 := forWhile 0 NUM_DIGITS (fun st => st) (fun i st => st && L.fcRead i) status2
  status3 && L.cnnRead

/-- The reference `classify`: the final `pixel`, `n_correct` and `items_tested`. -/
def classify (sentinel : Int) (L : Loaders) (frame0 : Nat → Nat → Nat) (out0 : FeatureMaps) :
    PredState :=
  forWhile 0 L.n_items.toNat (fun _ => setupStatus L)
    (fun i s => predictStep sentinel L frame0 out0 i s)
    { pixel := 0, n_correct := 0, items_tested := 0 }

end CNN

/-! ## The accelerator-offloaded program `main.cpp` -/

namespace Offload

open CNN

def INPUT_DIM : Nat := 28

/-- The `int` expression `nth_batch*batch_size*INPUT_DIM*INPUT_DIM`. -/
def inputOffset (batch_size : Int) (nth_batch : Nat) : Int :=
  wrap32 (wrap32 (wrap32 ((nth_batch : Int) * batch_size) * (INPUT_DIM : Int)) * (INPUT_DIM : Int))

/-- The `int` expression `nth_batch*batch_size`. -/
def outputOffset (batch_size : Int) (nth_batch : Nat) : Int :=
  wrap32 ((nth_batch : Int) * batch_size)

/-- Image number `i` of a byte buffer: its `28*28` bytes (nothing beyond them). -/
def imageAt (buffer : Int → Nat) (i : Int) : Nat → Nat :=
  fun p => if p < INPUT_DIM * INPUT_DIM then buffer ((INPUT_DIM * INPUT_DIM : Nat) * i + p) else 0

/-- Modelled from the spec: the offload execution runtime (the two kernels of the
accelerator binary, not part of the host sources). Given one batch of images it gives back
one predicted digit per image of the batch, in image order; `guess` is the digit the
accelerator predicts for one image. -/
def runKernels (guess : (Nat → Nat) → Nat) (input_images_buffer : Int → Nat) : Int → Nat :=
  fun i => guess (imageAt input_images_buffer i)

/-- One pass of the batch loop of `classify` on the host array `output_guesses`
(`batch_size` non-negative): the blocking write of `28*28*batch_size` bytes from
`input_images + inputOffset`, the two kernels, the blocking read of `batch_size` bytes to
`output_guesses + outputOffset`. -/
def batchStep (guess : (Nat → Nat) → Nat) (input_images : Int → Nat) (batch_size : Int)
    (nth_batch : Nat) (output_guesses : Int → Nat) : Int → Nat :=
  let input_images_buffer : Int → Nat := fun j => input_images (inputOffset batch_size nth_batch + j)
  let output_guesses_buffer := runKernels guess input_images_buffer
  fun a =>
    if outputOffset batch_size nth_batch ≤ a ∧ a < outputOffset batch_size nth_batch + batch_size then
      output_guesses_buffer (a - outputOffset batch_size nth_batch)
    else output_guesses a

/-- The batch loop of `classify` (`main.cpp`), from the prior content `out0` of
`output_guesses`. -/
def classify (guess : (Nat → Nat) → Nat) (input_images : Int → Nat) (batch_size batches : Int)
    (out0 : Int → Nat) : Int → Nat :=
  forLoop batches.toNat (fun nth_batch out => batchStep guess input_images batch_size nth_batch out)
    out0

/-- What `main` reports: `correct`, the denominator, and whether the warning was printed. -/
structure Report where
  correct : Int
  total : Int
  warned : Bool
deriving DecidableEq, Repr

/-- The inputs of `main`: loader outcomes, options and buffers. -/
structure Config where
  n_items : Int
  n_labels : Int
  fcRead : Nat → Bool
  cnnRead : Bool
  batch_size : Int
  batches : Int
  input_images : Int → Nat
  reference_guesses : Int → Nat

/-- The tally loop `for (unsigned i = 0; i < batch_size*batches; i++)` of `main`. -/
def tally (batch_size batches : Int) (output_guesses reference_guesses : Int → Nat) : Int :=
  forLoop (wrap32 (batch_size * batches) % 4294967296).toNat
    (fun i correct =>
      if output_guesses i = reference_guesses i then wrap32 (correct + 1) else correct) 0

/-- The function `main` after option parsing: `none` is an early `return -1`. -/
def mainRun (guess : (Nat → Nat) → Nat) (cfg : Config) (out0 : Int → Nat) : Option Report :=
  if cfg.n_items ≤ 0 then none
  else if cfg.n_items ≠ cfg.n_labels then none
  else if forWhile 0 NUM_DIGITS (fun ok => ok) (fun i _ => cfg.fcRead i) true = false then none
  else if cfg.cnnRead = false then none
  else
    let output_guesses := classify guess cfg.input_images cfg.batch_size cfg.batches out0
    some
      { correct := tally cfg.batch_size cfg.batches output_guesses cfg.reference_guesses
        total := wrap32 (cfg.batch_size * cfg.batches)
        warned := decide (cfg.n_items ≠ wrap32 (cfg.batch_size * cfg.batches)) }

end Offload

/-! ## Concrete inputs of the offloaded program used in examples -/

namespace Offload

/-- A guess function that answers the first pixel of the image. -/
def firstPixel : (Nat → Nat) → Nat := fun img => img 0

/-- A memory holding `1` from the base address of the image buffer on and `0` before. -/
def onesFromBase : Int → Nat := fun a => if 0 ≤ a then 1 else 0

/-- Ten images, every setup step successful, three batches of two images. -/
def smallConfig : Config :=
  { n_items := 10
    n_labels := 10
    fcRead := fun _ => true
    cnnRead := true
    batch_size := 2
    batches := 3
    input_images := onesFromBase
    reference_guesses := fun _ => 1 }

end Offload

/-! ## Reference formulas the code is compared with -/

namespace CNN

/-- The image extended by zero outside `[0, 27] x [0, 27]`. -/
def paddedPixel (frame : Nat → Nat → Nat) (r c : Int) : Int :=
  if 0 ≤ r ∧ r ≤ 27 ∧ 0 ≤ c ∧ c ≤ 27 then (frame r.toNat c.toNat : Int) else 0

/-- The zero-padded cross-correlation of feature `f` at pixel `(y, x)`, bias included,
as an exact integer. -/
def rawSpec (CNN_W : Nat → Int) (frame : Nat → Nat → Nat) (f y x : Nat) : Int :=
  CNN_W (26 * f + 25) +
    ∑ ty in Finset.Icc (-2 : Int) 2, ∑ tx in Finset.Icc (-2 : Int) 2,
      CNN_W (26 * f + (5 * (ty + 2) + (tx + 2)).toNat) * paddedPixel frame (y + ty) (x + tx)

/-- Rectify each of the four cells of block `(blockY, blockX)`, then take their maximum. -/
def pooledSpec (CNN_W : Nat → Int) (frame : Nat → Nat → Nat) (f blockY blockX : Nat) : Int :=
  max (max (max 0 (rawSpec CNN_W frame f (2 * blockY) (2 * blockX)))
           (max 0 (rawSpec CNN_W frame f (2 * blockY) (2 * blockX + 1))))
      (max (max 0 (rawSpec CNN_W frame f (2 * blockY + 1) (2 * blockX)))
           (max 0 (rawSpec CNN_W frame f (2 * blockY + 1) (2 * blockX + 1))))

/-- The exact product tap `(cy, cx)` contributes at pixel `(y, x)`: zero when the guard of
`tapStep` fails. -/
def tapTerm (CNN_W : Nat → Int) (frame : Nat → Nat → Nat) (c y x cy cx : Nat) : Int :=
  if y + cy ≥ 2 ∧ y + cy < 30 ∧ x + cx ≥ 2 ∧ x + cx < 30 then
    CNN_W (c * 26 + cy * 5 + cx) * (frame (y + cy - 2) (x + cx - 2) : Int)
  else 0

/-- The bias plus the exact products of the first `5*cy + cx` taps in loop order. -/
def tapPrefix (CNN_W : Nat → Int) (frame : Nat → Nat → Nat) (c y x cy cx : Nat) : Int :=
  CNN_W (c * 26 + 25) +
    (∑ j in Finset.range cy, ∑ i in Finset.range 5, tapTerm CNN_W frame c y x j i) +
    ∑ i in Finset.range cx, tapTerm CNN_W frame c y x cy i

/-- The exact score: the bias `W[6272]` plus the sum of `W[196c + 14y + x] * p[c][y][x]`. -/
def fcSpec (p : FeatureMaps) (W : Nat → Int) : Int :=
  W 6272 + ∑ c in Finset.range 32, ∑ y in Finset.range 14, ∑ x in Finset.range 14,
    W (196 * c + 14 * y + x) * p c y x

/-- Element `k` of the pooled map flattened feature-major, then row, then column. -/
def flatPooled (p : FeatureMaps) (k : Nat) : Int := p (k / 196) (k / 14 % 14) (k % 14)

/-- The exact sum of the first `n` products of `fc` in loop order. -/
def fcPrefix (p : FeatureMaps) (W : Nat → Int) (n : Nat) : Int :=
  ∑ k in Finset.range n, W k * flatPooled p k

/-! ## Concrete inputs used in examples -/

/-- The all-zero image. -/
def zeroFrame : Nat → Nat → Nat := fun _ _ => 0

/-- A weight buffer holding the largest 16-bit value everywhere. -/
def maxWeights : Nat → Int := fun _ => 32767

/-- A weight buffer holding `1` everywhere. -/
def unitWeights : Nat → Int := fun _ => 1

/-- An image whose pixels are all `1`. -/
def unitFrame : Nat → Nat → Nat := fun _ _ => 1

/-- A feature-map array holding `0` everywhere. -/
def zeroMaps : FeatureMaps := fun _ _ _ => 0

/-- A feature-map array holding `1` everywhere. -/
def unitMaps : FeatureMaps := fun _ _ _ => 1

/-- Ten scores with a tie for the maximum between digits 3 and 7. -/
def tiedScores : Nat → Int := fun j => if j = 3 ∨ j = 7 then 5 else 0

/-- Loader outcomes for an empty corpus. -/
def emptyCorpus : Loaders :=
  { n_items := 0
    n_labels := 0
    fcRead := fun _ => true
    cnnRead := true
    images := fun _ => 0
    labels := fun _ => 0
    FC_W := unitWeights
    CNN_W := unitWeights }

/-- Loader outcomes for a corpus of three images, every setup step successful. -/
def threeItemCorpus : Loaders :=
  { n_items := 3
    n_labels := 3
    fcRead := fun _ => true
    cnnRead := true
    images := fun _ => 0
    labels := fun _ => 0
    FC_W := unitWeights
    CNN_W := unitWeights }

end CNN

/-! ## Machine integers: lemmas -/

namespace CNN

theorem wrap32_of_inInt32 {z : Int} (h : inInt32 z) : wrap32 z = z := by
  unfold inInt32 at h; unfold wrap32; omega

theorem inInt32_wrap32 (z : Int) : inInt32 (wrap32 z) := by
  unfold inInt32 wrap32; omega

theorem wrap32_add_wrap32 (a b : Int) : wrap32 (a + wrap32 b) = wrap32 (a + b) := by
  unfold wrap32; omega

theorem wrap32_wrap32_add (a b : Int) : wrap32 (wrap32 a + b) = wrap32 (a + b) := by
  unfold wrap32; omega

theorem wrap32_idem (a : Int) : wrap32 (wrap32 a) = wrap32 a := by
  unfold wrap32; omega

theorem wrap32_add_congr {a b : Int} (h : wrap32 a = wrap32 b) (c : Int) :
    wrap32 (a + c) = wrap32 (b + c) := by
  rw [← wrap32_wrap32_add a c, h, wrap32_wrap32_add]

theorem inInt32_of_abs_le {z : Int} (h : |z| ≤ 2147483647) : inInt32 z := by
  have := abs_le.mp h
  unfold inInt32; omega

/-! ## Loops: lemmas -/

theorem forLoop_zero {σ : Type} (body : Nat → σ → σ) (s : σ) : forLoop 0 body s = s := rfl

theorem forLoop_succ {σ : Type} (n : Nat) (body : Nat → σ → σ) (s : σ) :
    forLoop (n + 1) body s = body n (forLoop n body s) := rfl

/-- A property kept by every pass of the body is kept by the loop. -/
theorem forLoop_invariant {σ : Type} (P : σ → Prop) (body : Nat → σ → σ) (n : Nat) (s : σ)
    (h0 : P s) (hstep : ∀ i a, i < n → P a → P (body i a)) : P (forLoop n body s) := by
  induction n with
  | zero => exact h0
  | succ k ih =>
    rw [forLoop_succ]
    exact hstep k _ (Nat.lt_succ_self k) (ih (fun i a hi ha => hstep i a (Nat.lt_succ_of_lt hi) ha))

/-- An observation that no pass from `a` on changes has, after the loop, the value it had
after `a` passes. -/
theorem forLoop_obs_from {σ α : Type} (obs : σ → α) (body : Nat → σ → σ) (a n : Nat) (s : σ)
    (han : a ≤ n) (hskip : ∀ i t, a ≤ i → i < n → obs (body i t) = obs t) :
    obs (forLoop n body s) = obs (forLoop a body s) := by
  induction n with
  | zero =>
    have : a = 0 := Nat.le_zero.mp han
    subst this; rfl
  | succ k ih =>
    rcases Nat.lt_or_ge a (k + 1) with hlt | hge
    · rw [forLoop_succ, hskip k _ (Nat.lt_succ_iff.mp hlt) (Nat.lt_succ_self k)]
      exact ih (Nat.lt_succ_iff.mp hlt) (fun i t h1 h2 => hskip i t h1 (Nat.lt_succ_of_lt h2))
    · have : a = k + 1 := Nat.le_antisymm han hge
      subst this; rfl

/-- An observation that no pass changes keeps its initial value. -/
theorem forLoop_obs_const {σ α : Type} (obs : σ → α) (body : Nat → σ → σ) (n : Nat) (s : σ)
    (hskip : ∀ i t, i < n → obs (body i t) = obs t) : obs (forLoop n body s) = obs s := by
  have h := forLoop_obs_from obs body 0 n s (Nat.zero_le n) (fun i t _ hi => hskip i t hi)
  rw [h]; rfl

/-- A loop whose passes add `t i` modulo `2^32` adds the sum of the `t i` modulo `2^32`. -/
theorem forLoop_wrap_sum (body : Nat → Int → Int) (t : Nat → Int) (n : Nat) (a : Int)
    (hstep : ∀ i acc, i < n → wrap32 (body i acc) = wrap32 (acc + t i)) :
    wrap32 (forLoop n body a) = wrap32 (a + ∑ i in Finset.range n, t i) := by
  induction n with
  | zero => simp [forLoop]
  | succ k ih =>
    rw [forLoop_succ, hstep k _ (Nat.lt_succ_self k), Finset.sum_range_succ,
      wrap32_add_congr (ih (fun i acc hi => hstep i acc (Nat.lt_succ_of_lt hi))) (t k)]
    congr 1; ring

end CNN

/-! ## The tap accumulator -/

namespace CNN

theorem tapStep_wrap (CNN_W : Nat → Int) (frame : Nat → Nat → Nat) (c y x cy cx : Nat) (acc : Int) :
    wrap32 (tapStep CNN_W frame c y x cy cx acc) =
      wrap32 (acc + tapTerm CNN_W frame c y x cy cx) := by
  unfold tapStep tapTerm
  simp only [CONV_MAT_DIM, CNN1_INPUT_DIM, CONV_MAT_WEIGHTS]
  split_ifs with h
  · rw [wrap32_idem, wrap32_add_wrap32]
  · simp

theorem tapStep_inInt32 (CNN_W : Nat → Int) (frame : Nat → Nat → Nat) (c y x cy cx : Nat)
    (acc : Int) (h : inInt32 acc) : inInt32 (tapStep CNN_W frame c y x cy cx acc) := by
  unfold tapStep
  split_ifs
  · exact inInt32_wrap32 _
  · exact h

theorem tapRow_wrap (CNN_W : Nat → Int) (frame : Nat → Nat → Nat) (c y x cy n : Nat) (acc : Int) :
    wrap32 (forLoop n (fun i a => tapStep CNN_W frame c y x cy i a) acc) =
      wrap32 (acc + ∑ i in Finset.range n, tapTerm CNN_W frame c y x cy i) :=
  forLoop_wrap_sum _ _ n acc (fun i a _ => tapStep_wrap CNN_W frame c y x cy i a)

theorem tapRow_inInt32 (CNN_W : Nat → Int) (frame : Nat → Nat → Nat) (c y x cy n : Nat)
    (acc : Int) (h : inInt32 acc) :
    inInt32 (forLoop n (fun i a => tapStep CNN_W frame c y x cy i a) acc) :=
  forLoop_invariant inInt32 _ n acc h (fun i a _ ha => tapStep_inInt32 CNN_W frame c y x cy i a ha)

/-- The accumulator is the exact prefix sum reduced to 32 bits. -/
theorem accumAt_eq_wrap32 (CNN_W : Nat → Int) (frame : Nat → Nat → Nat) (c y x cy cx : Nat)
    (hb : inInt32 (CNN_W (c * 26 + 25))) :
    accumAt CNN_W frame c y x cy cx = wrap32 (tapPrefix CNN_W frame c y x cy cx) := by
  have hin : inInt32 (accumAt CNN_W frame c y x cy cx) := by
    unfold accumAt
    apply tapRow_inInt32
    apply forLoop_invariant inInt32
    · exact hb
    · intro j a _ ha
      exact tapRow_inInt32 CNN_W frame c y x j _ a ha
  rw [← wrap32_of_inInt32 hin]
  unfold accumAt tapPrefix
  rw [tapRow_wrap]
  apply wrap32_add_congr
  simp only [CONV_MAT_WEIGHTS, CONV_MAT_DIM]
  exact forLoop_wrap_sum _ (fun j => ∑ i in Finset.range 5, tapTerm CNN_W frame c y x j i) cy _
    (fun j a _ => tapRow_wrap CNN_W frame c y x j 5 a)

theorem featureAccum_eq_accumAt (CNN_W : Nat → Int) (frame : Nat → Nat → Nat) (c y x : Nat) :
    featureAccum CNN_W frame c y x = accumAt CNN_W frame c y x 4 5 := rfl

theorem tapTerm_abs_le (CNN_W : Nat → Int) (frame : Nat → Nat → Nat) (c y x cy cx : Nat)
    (hpx : ∀ r s, r < 28 → s < 28 → frame r s ≤ 255)
    (hW : ∀ k, k < 832 → -32768 ≤ CNN_W k ∧ CNN_W k ≤ 32767)
    (hc : c < 32) (hcy : cy < 5) (hcx : cx < 5) :
    |tapTerm CNN_W frame c y x cy cx| ≤ 8355840 := by
  unfold tapTerm
  split_ifs with h
  · have h1 := hW (c * 26 + cy * 5 + cx) (by omega)
    have h2 := hpx (y + cy - 2) (x + cx - 2) (by omega) (by omega)
    have h3 : |CNN_W (c * 26 + cy * 5 + cx)| ≤ 32768 := abs_le.mpr ⟨by omega, by omega⟩
    have h4 : |(frame (y + cy - 2) (x + cx - 2) : Int)| ≤ 255 := by
      rw [abs_of_nonneg (Int.ofNat_nonneg _)]; exact_mod_cast h2
    rw [abs_mul]
    calc |CNN_W (c * 26 + cy * 5 + cx)| * |(frame (y + cy - 2) (x + cx - 2) : Int)|
        ≤ 32768 * 255 := mul_le_mul h3 h4 (abs_nonneg _) (by norm_num)
      _ = 8355840 := by norm_num
  · simp

theorem abs_sum_range_le (t : Nat → Int) (n : Nat) (B : Int)
    (h : ∀ i, i < n → |t i| ≤ B) : |∑ i in Finset.range n, t i| ≤ n * B := by
  induction n with
  | zero => simp
  | succ k ih =>
    rw [Finset.sum_range_succ]
    have h1 := ih (fun i hi => h i (Nat.lt_succ_of_lt hi))
    have h2 := h k (Nat.lt_succ_self k)
    have h3 := abs_add (∑ i in Finset.range k, t i) (t k)
    push_cast
    linarith

theorem tapPrefix_abs_le (CNN_W : Nat → Int) (frame : Nat → Nat → Nat) (c y x cy cx : Nat)
    (hpx : ∀ r s, r < 28 → s < 28 → frame r s ≤ 255)
    (hW : ∀ k, k < 832 → -32768 ≤ CNN_W k ∧ CNN_W k ≤ 32767)
    (hc : c < 32) (hcy : cy < 5) (hcx : cx ≤ 5) :
    |tapPrefix CNN_W frame c y x cy cx| ≤ 32768 + (5 * cy + cx : Nat) * 8355840 := by
  unfold tapPrefix
  have hb := hW (c * 26 + 25) (by omega)
  have h0 : |CNN_W (c * 26 + 25)| ≤ 32768 := abs_le.mpr ⟨by omega, by omega⟩
  have h1 : |∑ j in Finset.range cy, ∑ i in Finset.range 5, tapTerm CNN_W frame c y x j i|
      ≤ cy * (5 * 8355840) := by
    apply abs_sum_range_le
    intro j hj
    have := abs_sum_range_le (fun i => tapTerm CNN_W frame c y x j i) 5 8355840
      (fun i hi => tapTerm_abs_le CNN_W frame c y x j i hpx hW hc (by omega) hi)
    simpa using this
  have h2 : |∑ i in Finset.range cx, tapTerm CNN_W frame c y x cy i| ≤ cx * 8355840 :=
    abs_sum_range_le _ cx 8355840
      (fun i hi => tapTerm_abs_le CNN_W frame c y x cy i hpx hW hc hcy (by omega))
  have h3 := abs_add (CNN_W (c * 26 + 25) +
    ∑ j in Finset.range cy, ∑ i in Finset.range 5, tapTerm CNN_W frame c y x j i)
    (∑ i in Finset.range cx, tapTerm CNN_W frame c y x cy i)
  have h4 := abs_add (CNN_W (c * 26 + 25))
    (∑ j in Finset.range cy, ∑ i in Finset.range 5, tapTerm CNN_W frame c y x j i)
  push_cast
  linarith

theorem sum_Icc_shift (F : Int → Int) :
    (∑ t in Finset.Icc (-2 : Int) 2, F t) = ∑ j in Finset.range 5, F ((j : Int) - 2) := by
  have h : Finset.Icc (-2 : Int) 2 = {-2, -1, 0, 1, 2} := by decide
  rw [h]
  simp [Finset.sum_range_succ]
  ring

theorem tapTerm_eq_spec (CNN_W : Nat → Int) (frame : Nat → Nat → Nat) (f y x j i : Nat) :
    CNN_W (26 * f + (5 * (((j : Int) - 2) + 2) + (((i : Int) - 2) + 2)).toNat) *
        paddedPixel frame ((y : Int) + ((j : Int) - 2)) ((x : Int) + ((i : Int) - 2)) =
      tapTerm CNN_W frame f y x j i := by
  unfold tapTerm paddedPixel
  have hidx : 26 * f + (5 * (((j : Int) - 2) + 2) + (((i : Int) - 2) + 2)).toNat
      = f * 26 + j * 5 + i := by omega
  rw [hidx]
  by_cases h : y + j ≥ 2 ∧ y + j < 30 ∧ x + i ≥ 2 ∧ x + i < 30
  · have h1 : (0 : Int) ≤ (y : Int) + ((j : Int) - 2) ∧ (y : Int) + ((j : Int) - 2) ≤ 27 ∧
        (0 : Int) ≤ (x : Int) + ((i : Int) - 2) ∧ (x : Int) + ((i : Int) - 2) ≤ 27 := by omega
    have h2 : ((y : Int) + ((j : Int) - 2)).toNat = y + j - 2 := by omega
    have h3 : ((x : Int) + ((i : Int) - 2)).toNat = x + i - 2 := by omega
    rw [if_pos h1, if_pos h, h2, h3]
  · have h1 : ¬ ((0 : Int) ≤ (y : Int) + ((j : Int) - 2) ∧ (y : Int) + ((j : Int) - 2) ≤ 27 ∧
        (0 : Int) ≤ (x : Int) + ((i : Int) - 2) ∧ (x : Int) + ((i : Int) - 2) ≤ 27) := by omega
    rw [if_neg h1, if_neg h]
    simp

/-- The exact sum of all 25 taps is the zero-padded cross-correlation. -/
theorem tapPrefix_full_eq_rawSpec (CNN_W : Nat → Int) (frame : Nat → Nat → Nat) (f y x : Nat) :
    tapPrefix CNN_W frame f y x 4 5 = rawSpec CNN_W frame f y x := by
  unfold tapPrefix rawSpec
  rw [sum_Icc_shift]
  have h : ∀ j : Nat, (∑ tx in Finset.Icc (-2 : Int) 2,
      CNN_W (26 * f + (5 * (((j : Int) - 2) + 2) + (tx + 2)).toNat) *
        paddedPixel frame ((y : Int) + ((j : Int) - 2)) ((x : Int) + tx))
      = ∑ i in Finset.range 5, tapTerm CNN_W frame f y x j i := by
    intro j
    rw [sum_Icc_shift (fun tx => CNN_W (26 * f + (5 * (((j : Int) - 2) + 2) + (tx + 2)).toNat) *
        paddedPixel frame ((y : Int) + ((j : Int) - 2)) ((x : Int) + tx))]
    exact Finset.sum_congr rfl (fun i _ => tapTerm_eq_spec CNN_W frame f y x j i)
  simp only [h]
  rw [Finset.sum_range_succ (fun j => ∑ i in Finset.range 5, tapTerm CNN_W frame f y x j i) 4]
  have : f * 26 + 25 = 26 * f + 25 := by omega
  rw [this]
  ring

/-- For 8-bit pixels and 16-bit weights the 32-bit accumulator is the exact
cross-correlation. -/
theorem featureAccum_eq_rawSpec (CNN_W : Nat → Int) (frame : Nat → Nat → Nat) (c y x : Nat)
    (hpx : ∀ r s, r < 28 → s < 28 → frame r s ≤ 255)
    (hW : ∀ k, k < 832 → -32768 ≤ CNN_W k ∧ CNN_W k ≤ 32767)
    (hc : c < 32) :
    featureAccum CNN_W frame c y x = rawSpec CNN_W frame c y x := by
  have hb := hW (c * 26 + 25) (by omega)
  rw [featureAccum_eq_accumAt, accumAt_eq_wrap32 CNN_W frame c y x 4 5 ⟨by omega, by omega⟩,
    ← tapPrefix_full_eq_rawSpec]
  apply wrap32_of_inInt32
  apply inInt32_of_abs_le
  have := tapPrefix_abs_le CNN_W frame c y x 4 5 hpx hW hc (by omega) (by omega)
  norm_num at this
  linarith

end CNN

/-! ## The max-pool scheme -/

namespace CNN

theorem ite_gt_eq_max (a b : Int) : (if a > b then a else b) = max a b := by
  rw [max_def]; split_ifs <;> omega

theorem setCell_other (out : FeatureMaps) (c y x f bY bX : Nat) (v : Int)
    (h : ¬ (f = c ∧ bY = y ∧ bX = x)) : setCell out c y x v f bY bX = out f bY bX := by
  show (if f = c ∧ bY = y ∧ bX = x then v else out f bY bX) = out f bY bX
  exact if_neg h

theorem setCell_same (out : FeatureMaps) (c y x : Nat) (v : Int) :
    setCell out c y x v c y x = v := by
  show (if c = c ∧ y = y ∧ x = x then v else out c y x) = v
  exact if_pos ⟨rfl, rfl, rfl⟩

theorem poolStep_other (CNN_W : Nat → Int) (frame : Nat → Nat → Nat) (c y x f bY bX : Nat)
    (out : FeatureMaps) (h : ¬ (f = c ∧ bY = y / 2 ∧ bX = x / 2)) :
    poolStep CNN_W frame c y x out f bY bX = out f bY bX := by
  unfold poolStep
  simp only [MAX_POOL_SIZE]
  split_ifs <;> exact setCell_other _ _ _ _ _ _ _ _ h

theorem poolStep_first (CNN_W : Nat → Int) (frame : Nat → Nat → Nat) (c y x : Nat)
    (out : FeatureMaps) (hx : x % 2 = 0) (hy : y % 2 = 0) :
    poolStep CNN_W frame c y x out c (y / 2) (x / 2) = max (featureAccum CNN_W frame c y x) 0 := by
  unfold poolStep
  simp only [MAX_POOL_SIZE, Nat.add_one_sub_one, Nat.and_one_is_mod, hx, hy, and_self, if_true,
    ite_gt_eq_max, setCell_same]

theorem poolStep_rest (CNN_W : Nat → Int) (frame : Nat → Nat → Nat) (c y x : Nat)
    (out : FeatureMaps) (h : ¬ (x % 2 = 0 ∧ y % 2 = 0)) :
    poolStep CNN_W frame c y x out c (y / 2) (x / 2) =
      max (featureAccum CNN_W frame c y x) (out c (y / 2) (x / 2)) := by
  unfold poolStep
  simp only [MAX_POOL_SIZE, Nat.add_one_sub_one, Nat.and_one_is_mod, h, if_false,
    ite_gt_eq_max, setCell_same]

theorem rowLoop_other (CNN_W : Nat → Int) (frame : Nat → Nat → Nat) (c y f bY bX : Nat)
    (out : FeatureMaps) (h : ¬ (f = c ∧ bY = y / 2)) :
    rowLoop CNN_W frame c y out f bY bX = out f bY bX := by
  unfold rowLoop
  exact forLoop_obs_const (fun o : FeatureMaps => o f bY bX) _ _ out
    (fun x t _ => poolStep_other CNN_W frame c y x f bY bX t (fun hh => h ⟨hh.1, hh.2.1⟩))

/-- What the `x` loop leaves in a cell depends on the two pixels of the row that fall in
the cell, and on the cell's prior content. -/
theorem rowLoop_cell (CNN_W : Nat → Int) (frame : Nat → Nat → Nat) (f y bX : Nat)
    (out : FeatureMaps) (hbX : bX < 14) :
    rowLoop CNN_W frame f y out f (y / 2) bX =
      poolStep CNN_W frame f y (2 * bX + 1)
        (poolStep CNN_W frame f y (2 * bX)
          (forLoop (2 * bX) (fun x o => poolStep CNN_W frame f y x o) out)) f (y / 2) bX := by
  unfold rowLoop
  rw [forLoop_obs_from (fun o : FeatureMaps => o f (y / 2) bX) _ (2 * bX + 2) CNN1_INPUT_DIM out
    (by simp only [CNN1_INPUT_DIM]; omega)
    (fun x t h1 _ => poolStep_other CNN_W frame f y x f (y / 2) bX t (by omega))]
  rfl

theorem rowLoop_even (CNN_W : Nat → Int) (frame : Nat → Nat → Nat) (f bY bX : Nat)
    (out : FeatureMaps) (hbX : bX < 14) :
    rowLoop CNN_W frame f (2 * bY) out f bY bX =
      max (featureAccum CNN_W frame f (2 * bY) (2 * bX + 1))
        (max (featureAccum CNN_W frame f (2 * bY) (2 * bX)) 0) := by
  have hy : 2 * bY / 2 = bY := by omega
  have h := rowLoop_cell CNN_W frame f (2 * bY) bX out hbX
  rw [hy] at h
  rw [h]
  have h1 := poolStep_rest CNN_W frame f (2 * bY) (2 * bX + 1)
    (poolStep CNN_W frame f (2 * bY) (2 * bX)
      (forLoop (2 * bX) (fun x o => poolStep CNN_W frame f (2 * bY) x o) out)) (by omega)
  have h2 := poolStep_first CNN_W frame f (2 * bY) (2 * bX)
    (forLoop (2 * bX) (fun x o => poolStep CNN_W frame f (2 * bY) x o) out) (by omega) (by omega)
  have e1 : (2 * bX + 1) / 2 = bX := by omega
  have e2 : 2 * bX / 2 = bX := by omega
  rw [hy, e1] at h1
  rw [hy, e2] at h2
  rw [h1, h2]

theorem rowLoop_odd (CNN_W : Nat → Int) (frame : Nat → Nat → Nat) (f bY bX : Nat)
    (out : FeatureMaps) (hbX : bX < 14) :
    rowLoop CNN_W frame f (2 * bY + 1) out f bY bX =
      max (featureAccum CNN_W frame f (2 * bY + 1) (2 * bX + 1))
        (max (featureAccum CNN_W frame f (2 * bY + 1) (2 * bX)) (out f bY bX)) := by
  have hy : (2 * bY + 1) / 2 = bY := by omega
  have h := rowLoop_cell CNN_W frame f (2 * bY + 1) bX out hbX
  rw [hy] at h
  rw [h]
  have h1 := poolStep_rest CNN_W frame f (2 * bY + 1) (2 * bX + 1)
    (poolStep CNN_W frame f (2 * bY + 1) (2 * bX)
      (forLoop (2 * bX) (fun x o => poolStep CNN_W frame f (2 * bY + 1) x o) out)) (by omega)
  have h2 := poolStep_rest CNN_W frame f (2 * bY + 1) (2 * bX)
    (forLoop (2 * bX) (fun x o => poolStep CNN_W frame f (2 * bY + 1) x o) out) (by omega)
  have h3 : forLoop (2 * bX) (fun x o => poolStep CNN_W frame f (2 * bY + 1) x o) out f bY bX
      = out f bY bX :=
    forLoop_obs_const (fun o : FeatureMaps => o f bY bX) _ _ out
      (fun x t hx => poolStep_other CNN_W frame f (2 * bY + 1) x f bY bX t (by omega))
  have e1 : (2 * bX + 1) / 2 = bX := by omega
  have e2 : 2 * bX / 2 = bX := by omega
  rw [hy, e1] at h1
  rw [hy, e2] at h2
  rw [h1, h2, h3]

theorem featureLoop_other (CNN_W : Nat → Int) (frame : Nat → Nat → Nat) (c f bY bX : Nat)
    (out : FeatureMaps) (h : f ≠ c) :
    featureLoop CNN_W frame c out f bY bX = out f bY bX := by
  unfold featureLoop
  exact forLoop_obs_const (fun o : FeatureMaps => o f bY bX) _ _ out
    (fun y t _ => rowLoop_other CNN_W frame c y f bY bX t (fun hh => h hh.1))

/-- What the `y` loop of feature `f` leaves in cell `(bY, bX)`, whatever was there. -/
theorem featureLoop_cell (CNN_W : Nat → Int) (frame : Nat → Nat → Nat) (f bY bX : Nat)
    (out : FeatureMaps) (hbY : bY < 14) (hbX : bX < 14) :
    featureLoop CNN_W frame f out f bY bX =
      max (featureAccum CNN_W frame f (2 * bY + 1) (2 * bX + 1))
        (max (featureAccum CNN_W frame f (2 * bY + 1) (2 * bX))
          (max (featureAccum CNN_W frame f (2 * bY) (2 * bX + 1))
            (max (featureAccum CNN_W frame f (2 * bY) (2 * bX)) 0))) := by
  unfold featureLoop
  rw [forLoop_obs_from (fun o : FeatureMaps => o f bY bX) _ (2 * bY + 2) CNN1_INPUT_DIM out
    (by simp only [CNN1_INPUT_DIM]; omega)
    (fun y t h1 _ => rowLoop_other CNN_W frame f y f bY bX t (by omega))]
  show rowLoop CNN_W frame f (2 * bY + 1) (rowLoop CNN_W frame f (2 * bY) _) f bY bX = _
  rw [rowLoop_odd CNN_W frame f bY bX _ hbX, rowLoop_even CNN_W frame f bY bX _ hbX]

/-- What the convolution/pool loop leaves in cell `(f, bY, bX)`, whatever `cnn_output`
held before. -/
theorem cnnLayer_cell (CNN_W : Nat → Int) (frame : Nat → Nat → Nat) (out0 : FeatureMaps)
    (f bY bX : Nat) (hf : f < 32) (hbY : bY < 14) (hbX : bX < 14) :
    cnnLayer CNN_W frame out0 f bY bX =
      max (featureAccum CNN_W frame f (2 * bY + 1) (2 * bX + 1))
        (max (featureAccum CNN_W frame f (2 * bY + 1) (2 * bX))
          (max (featureAccum CNN_W frame f (2 * bY) (2 * bX + 1))
            (max (featureAccum CNN_W frame f (2 * bY) (2 * bX)) 0))) := by
  unfold cnnLayer
  rw [forLoop_obs_from (fun o : FeatureMaps => o f bY bX) _ (f + 1) CNN1_FEATURES out0
    (by simp only [CNN1_FEATURES]; omega)
    (fun c t h1 _ => featureLoop_other CNN_W frame c f bY bX t (by omega))]
  show featureLoop CNN_W frame f _ f bY bX = _
  exact featureLoop_cell CNN_W frame f bY bX _ hbY hbX

end CNN

/-! ## The convolution-pool engine: results -/

namespace CNN

theorem max_rearrange (a b c d : Int) :
    max d (max c (max b (max a 0))) = max (max (max 0 a) (max 0 b)) (max (max 0 c) (max 0 d)) := by
  omega

theorem tapTerm_zero_frame (CNN_W : Nat → Int) (c y x cy cx : Nat) :
    tapTerm CNN_W (fun _ _ => 0) c y x cy cx = 0 := by
  unfold tapTerm; split_ifs <;> simp

theorem featureAccum_zero_frame (CNN_W : Nat → Int) (c y x : Nat)
    (hb : inInt32 (CNN_W (c * 26 + 25))) :
    featureAccum CNN_W (fun _ _ => 0) c y x = CNN_W (c * 26 + 25) := by
  rw [featureAccum_eq_accumAt, accumAt_eq_wrap32 CNN_W _ c y x 4 5 hb]
  unfold tapPrefix
  simp only [tapTerm_zero_frame, Finset.sum_const_zero, add_zero]
  exact wrap32_of_inInt32 hb

theorem cnnLayer_zero_frame (CNN_W : Nat → Int) (out0 : FeatureMaps) (f bY bX : Nat)
    (hb : inInt32 (CNN_W (f * 26 + 25))) (hf : f < 32) (hbY : bY < 14) (hbX : bX < 14) :
    cnnLayer CNN_W (fun _ _ => 0) out0 f bY bX = max 0 (CNN_W (26 * f + 25)) := by
  rw [cnnLayer_cell CNN_W _ out0 f bY bX hf hbY hbX]
  simp only [featureAccum_zero_frame CNN_W f _ _ hb]
  have : f * 26 + 25 = 26 * f + 25 := by omega
  rw [this]
  omega

/-- C1: for an image of 8-bit pixels and 16-bit convolution weights, the cell
`cnn_output[f][blockY][blockX]` left by the convolution/pool loop is the maximum over the
four cells of the 2x2 block of `max(0, raw)`, `raw` being the zero-padded cross-correlation
plus bias: the inline scheme equals "rectify each of the four cells, then take their
maximum". -/
theorem cnnLayer_eq_pooledSpec (CNN_W : Nat → Int) (frame : Nat → Nat → Nat) (out0 : FeatureMaps)
    (f blockY blockX : Nat)
    (hpx : ∀ r s, r < 28 → s < 28 → frame r s ≤ 255)
    (hW : ∀ k, k < 832 → -32768 ≤ CNN_W k ∧ CNN_W k ≤ 32767)
    (hf : f < 32) (hbY : blockY < 14) (hbX : blockX < 14) :
    cnnLayer CNN_W frame out0 f blockY blockX = pooledSpec CNN_W frame f blockY blockX := by
  rw [cnnLayer_cell CNN_W frame out0 f blockY blockX hf hbY hbX]
  simp only [featureAccum_eq_rawSpec CNN_W frame f _ _ hpx hW hf]
  unfold pooledSpec
  exact max_rearrange _ _ _ _

/-- C4: after the convolution/pool loop every one of the 32*14*14 cells of `cnn_output`
is non-negative, whatever the image and the weights. -/
theorem cnnLayer_nonneg (CNN_W : Nat → Int) (frame : Nat → Nat → Nat) (out0 : FeatureMaps)
    (f blockY blockX : Nat) (hf : f < 32) (hbY : blockY < 14) (hbX : blockX < 14) :
    0 ≤ cnnLayer CNN_W frame out0 f blockY blockX := by
  rw [cnnLayer_cell CNN_W frame out0 f blockY blockX hf hbY hbX]
  omega

/-- C5: for the all-zero image every pooled output of feature `f` is `max(0, bias(f))`
with `bias(f) = CNN_W[26f+25]`; hence a second 16-bit weight set with the same 32 biases,
whatever its taps, gives the same pooled cell. -/
theorem cnnLayer_zero_image (CNN_W : Nat → Int) (out0 : FeatureMaps) (f blockY blockX : Nat)
    (hW : ∀ k, k < 832 → -32768 ≤ CNN_W k ∧ CNN_W k ≤ 32767)
    (hf : f < 32) (hbY : blockY < 14) (hbX : blockX < 14) :
    cnnLayer CNN_W (fun _ _ => 0) out0 f blockY blockX = max 0 (CNN_W (26 * f + 25)) ∧
    ∀ (CNN_W2 : Nat → Int) (out2 : FeatureMaps),
      (∀ k, k < 832 → -32768 ≤ CNN_W2 k ∧ CNN_W2 k ≤ 32767) →
      (∀ g, g < 32 → CNN_W2 (26 * g + 25) = CNN_W (26 * g + 25)) →
      cnnLayer CNN_W2 (fun _ _ => 0) out2 f blockY blockX =
        cnnLayer CNN_W (fun _ _ => 0) out0 f blockY blockX := by
  have key : ∀ (V : Nat → Int) (o : FeatureMaps),
      (∀ k, k < 832 → -32768 ≤ V k ∧ V k ≤ 32767) →
      cnnLayer V (fun _ _ => 0) o f blockY blockX = max 0 (V (26 * f + 25)) := by
    intro V o hV
    have hb := hV (f * 26 + 25) (by omega)
    exact cnnLayer_zero_frame V o f blockY blockX ⟨by omega, by omega⟩ hf hbY hbX
  refine ⟨key CNN_W out0 hW, ?_⟩
  intro CNN_W2 out2 hW2 hbias
  rw [key CNN_W2 out2 hW2, key CNN_W out0 hW, hbias f hf]

/-- C8: for 8-bit pixels and 16-bit weights, at every point of the two tap loops (after
`cy` complete rows and `cx` taps of the next) the 32-bit accumulator `feature_accum` is the
exact integer sum of the bias and the tap products added so far, of absolute value at most
`32768 + 25*255*32768 = 208928768`; the product and the sum computed by the next tap are
within the signed 32-bit range before any reduction; and the final accumulator is the
exact cross-correlation. -/
theorem accumAt_exact_and_bounded (CNN_W : Nat → Int) (frame : Nat → Nat → Nat)
    (c y x cy cx : Nat)
    (hpx : ∀ r s, r < 28 → s < 28 → frame r s ≤ 255)
    (hW : ∀ k, k < 832 → -32768 ≤ CNN_W k ∧ CNN_W k ≤ 32767)
    (hc : c < 32) (hcy : cy < 5) (hcx : cx ≤ 5) :
    accumAt CNN_W frame c y x cy cx = tapPrefix CNN_W frame c y x cy cx ∧
    |accumAt CNN_W frame c y x cy cx| ≤ 208928768 ∧
    inInt32 (accumAt CNN_W frame c y x cy cx) ∧
    (cx < 5 → inInt32 (tapTerm CNN_W frame c y x cy cx) ∧
      inInt32 (accumAt CNN_W frame c y x cy cx + tapTerm CNN_W frame c y x cy cx)) ∧
    featureAccum CNN_W frame c y x = rawSpec CNN_W frame c y x := by
  have hb := hW (c * 26 + 25) (by omega)
  have hbnd := tapPrefix_abs_le CNN_W frame c y x cy cx hpx hW hc hcy hcx
  have hle : (32768 : Int) + ((5 * cy + cx : Nat) : Int) * 8355840 ≤ 208928768 := by
    have : ((5 * cy + cx : Nat) : Int) ≤ 25 := by exact_mod_cast (by omega : 5 * cy + cx ≤ 25)
    linarith
  have habs : |tapPrefix CNN_W frame c y x cy cx| ≤ 208928768 := le_trans hbnd hle
  have heq : accumAt CNN_W frame c y x cy cx = tapPrefix CNN_W frame c y x cy cx := by
    rw [accumAt_eq_wrap32 CNN_W frame c y x cy cx ⟨by omega, by omega⟩]
    exact wrap32_of_inInt32 (inInt32_of_abs_le (by linarith))
  refine ⟨heq, by rw [heq]; exact habs, by rw [heq]; exact inInt32_of_abs_le (by linarith), ?_,
    featureAccum_eq_rawSpec CNN_W frame c y x hpx hW hc⟩
  intro hlt
  have ht := tapTerm_abs_le CNN_W frame c y x cy cx hpx hW hc hcy hlt
  refine ⟨inInt32_of_abs_le (by linarith), ?_⟩
  rw [heq]
  apply inInt32_of_abs_le
  have h3 := abs_add (tapPrefix CNN_W frame c y x cy cx) (tapTerm CNN_W frame c y x cy cx)
  have : ((5 * cy + cx : Nat) : Int) ≤ 24 := by exact_mod_cast (by omega : 5 * cy + cx ≤ 24)
  linarith

end CNN

/-! ## The fully-connected neuron: results -/

namespace CNN

theorem NN_OUTPUT_SIZE_succ : NN_OUTPUT_SIZE + 1 = 6273 := by decide

theorem flatPooled_at (p : FeatureMaps) (c y x : Nat) (hy : y < 14) (hx : x < 14) :
    flatPooled p (196 * c + 14 * y + x) = p c y x := by
  unfold flatPooled
  have h1 : (196 * c + 14 * y + x) / 196 = c := by omega
  have h2 : (196 * c + 14 * y + x) / 14 % 14 = y := by omega
  have h3 : (196 * c + 14 * y + x) % 14 = x := by omega
  rw [h1, h2, h3]

theorem fcPrefix_succ (p : FeatureMaps) (W : Nat → Int) (n : Nat) :
    fcPrefix p W (n + 1) = fcPrefix p W n + W n * flatPooled p n := by
  unfold fcPrefix; rw [Finset.sum_range_succ]

theorem fcPrefix_row (p : FeatureMaps) (W : Nat → Int) (c y n : Nat) (hy : y < 14) (hn : n ≤ 14) :
    fcPrefix p W (196 * c + 14 * y + n) =
      fcPrefix p W (196 * c + 14 * y) +
        ∑ x in Finset.range n, W (196 * c + 14 * y + x) * p c y x := by
  induction n with
  | zero => simp
  | succ k ih =>
    rw [← Nat.add_assoc, fcPrefix_succ, ih (by omega), Finset.sum_range_succ,
      flatPooled_at p c y k hy (by omega)]
    ring

theorem fcPrefix_feature (p : FeatureMaps) (W : Nat → Int) (c m : Nat) (hm : m ≤ 14) :
    fcPrefix p W (196 * c + 14 * m) =
      fcPrefix p W (196 * c) +
        ∑ y in Finset.range m, ∑ x in Finset.range 14, W (196 * c + 14 * y + x) * p c y x := by
  induction m with
  | zero => simp
  | succ k ih =>
    have e : 196 * c + 14 * (k + 1) = 196 * c + 14 * k + 14 := by omega
    rw [e, fcPrefix_row p W c k 14 (by omega) (le_refl _), ih (by omega),
      Finset.sum_range_succ _ k]
    ring

theorem fcPrefix_features (p : FeatureMaps) (W : Nat → Int) (n : Nat) :
    fcPrefix p W (196 * n) =
      ∑ c in Finset.range n, ∑ y in Finset.range 14, ∑ x in Finset.range 14,
        W (196 * c + 14 * y + x) * p c y x := by
  induction n with
  | zero => simp [fcPrefix]
  | succ k ih =>
    have e : 196 * (k + 1) = 196 * k + 14 * 14 := by omega
    rw [e, fcPrefix_feature p W k 14 (le_refl _), ih, Finset.sum_range_succ _ k]

theorem fcSpec_eq_fcPrefix (p : FeatureMaps) (W : Nat → Int) :
    fcSpec p W = W 6272 + fcPrefix p W 6272 := by
  unfold fcSpec
  rw [show (6272 : Nat) = 196 * 32 from rfl, fcPrefix_features]

theorem fcStep_state (p : FeatureMaps) (W : Nat → Int) (c y x : Nat) (hy : y < 14) (hx : x < 14) :
    fcStep p W c y x (wrap32 (fcPrefix p W (196 * c + 14 * y + x)), 196 * c + 14 * y + x) =
      (wrap32 (fcPrefix p W (196 * c + 14 * y + x + 1)), 196 * c + 14 * y + x + 1) := by
  unfold fcStep
  simp only [fcPrefix_succ, flatPooled_at p c y x hy hx, wrap32_add_wrap32, wrap32_wrap32_add]

theorem fcRow_state (p : FeatureMaps) (W : Nat → Int) (c y n : Nat) (hy : y < 14) (hn : n ≤ 14) :
    forLoop n (fun i s => fcStep p W c y i s)
        (wrap32 (fcPrefix p W (196 * c + 14 * y)), 196 * c + 14 * y) =
      (wrap32 (fcPrefix p W (196 * c + 14 * y + n)), 196 * c + 14 * y + n) := by
  induction n with
  | zero => rfl
  | succ k ih =>
    rw [forLoop_succ, ih (by omega)]
    exact fcStep_state p W c y k hy (by omega)

theorem fcRows_state (p : FeatureMaps) (W : Nat → Int) (c m : Nat) (hm : m ≤ 14) :
    forLoop m (fun j s1 => forLoop POOL1_OUTPUT_DIM (fun i s2 => fcStep p W c j i s2) s1)
        (wrap32 (fcPrefix p W (196 * c)), 196 * c) =
      (wrap32 (fcPrefix p W (196 * c + 14 * m)), 196 * c + 14 * m) := by
  induction m with
  | zero => rfl
  | succ k ih =>
    rw [forLoop_succ, ih (by omega)]
    have e : 196 * c + 14 * (k + 1) = 196 * c + 14 * k + 14 := by omega
    rw [e]
    exact fcRow_state p W c k 14 (by omega) (le_refl _)

theorem fcFeatures_state (p : FeatureMaps) (W : Nat → Int) (n : Nat) :
    forLoop n (fun d s => fcFeature p W d s) (0, 0) =
      (wrap32 (fcPrefix p W (196 * n)), 196 * n) := by
  induction n with
  | zero => simp [forLoop, fcPrefix, wrap32]
  | succ k ih =>
    rw [forLoop_succ, ih]
    have e : 196 * (k + 1) = 196 * k + 14 * 14 := by omega
    rw [e]
    exact fcRows_state p W k 14 (le_refl _)

/-- The state of `fc` at every point of its loops: `k` is the flattened position and
`neuron` the exact prefix sum reduced to 32 bits. -/
theorem fcAt_state (p : FeatureMaps) (W : Nat → Int) (c y x : Nat) (hy : y < 14) (hx : x ≤ 14) :
    fcAt p W c y x =
      (wrap32 (fcPrefix p W (196 * c + 14 * y + x)), 196 * c + 14 * y + x) := by
  unfold fcAt
  rw [fcFeatures_state, fcRows_state p W c y (by omega)]
  exact fcRow_state p W c y x hy hx

theorem fc_eq_wrap32 (p : FeatureMaps) (W : Nat → Int) : fc p W = wrap32 (fcSpec p W) := by
  unfold fc
  simp only [CNN1_FEATURES]
  rw [fcFeatures_state p W 32, fcSpec_eq_fcPrefix]
  simp only [wrap32_wrap32_add, Nat.reduceMul]
  rw [add_comm]

/-- C3: `fc(p, W)` is `W[6272]` plus the sum over `c < 32`, `y < 14`, `x < 14` of
`W[196c + 14y + x] * p[c][y][x]`, in signed 32-bit wrap-around arithmetic; in `classify`
digit `j` is scored with the slice of `FC_W` that starts at offset `6273*j`. -/
theorem fc_eq_wrapped_weighted_sum (p : FeatureMaps) (W FC_W : Nat → Int) (j : Nat) :
    fc p W = wrap32 (W 6272 + ∑ c in Finset.range 32, ∑ y in Finset.range 14,
      ∑ x in Finset.range 14, W (196 * c + 14 * y + x) * p c y x) ∧
    digitScore p FC_W j = wrap32 (FC_W (6273 * j + 6272) + ∑ c in Finset.range 32,
      ∑ y in Finset.range 14, ∑ x in Finset.range 14,
        FC_W (6273 * j + (196 * c + 14 * y + x)) * p c y x) := by
  constructor
  · exact fc_eq_wrap32 p W
  · unfold digitScore
    rw [fc_eq_wrap32, NN_OUTPUT_SIZE_succ]
    rfl

end CNN

/-! ## Overflow of the fully-connected neuron -/

namespace CNN

theorem abs_fcPrefix_le (p : FeatureMaps) (W : Nat → Int) (n : Nat) (hn : n ≤ 6272) :
    |fcPrefix p W n| ≤ ∑ k in Finset.range 6272, |W k * flatPooled p k| := by
  unfold fcPrefix
  calc |∑ k in Finset.range n, W k * flatPooled p k|
      ≤ ∑ k in Finset.range n, |W k * flatPooled p k| := Finset.abs_sum_le_sum_abs _ _
    _ ≤ ∑ k in Finset.range 6272, |W k * flatPooled p k| :=
        Finset.sum_le_sum_of_subset_of_nonneg (Finset.range_mono hn)
          (fun _ _ _ => abs_nonneg _)

theorem abs_fcTerm_le (p : FeatureMaps) (W : Nat → Int) (k : Nat) (hk : k < 6272) :
    |W k * flatPooled p k| ≤ ∑ i in Finset.range 6272, |W i * flatPooled p i| :=
  Finset.single_le_sum (f := fun i => |W i * flatPooled p i|) (fun _ _ => abs_nonneg _)
    (Finset.mem_range.mpr hk)

theorem maxWeights_zeroFrame_cell (out0 : FeatureMaps) (c y x : Nat)
    (hc : c < 32) (hy : y < 14) (hx : x < 14) :
    cnnLayer maxWeights zeroFrame out0 c y x = 32767 := by
  have h := cnnLayer_zero_frame maxWeights out0 c y x
    (by unfold inInt32 maxWeights; omega) hc hy hx
  unfold zeroFrame
  rw [h]
  unfold maxWeights
  omega

theorem fcSpec_maxWeights (out0 : FeatureMaps) :
    fcSpec (cnnLayer maxWeights zeroFrame out0) maxWeights = 6734097717375 := by
  unfold fcSpec
  have h : ∀ c ∈ Finset.range 32, (∑ y in Finset.range 14, ∑ x in Finset.range 14,
      maxWeights (196 * c + 14 * y + x) * cnnLayer maxWeights zeroFrame out0 c y x)
      = ∑ _y in Finset.range 14, ∑ _x in Finset.range 14, (1073676289 : Int) := by
    intro c hc
    apply Finset.sum_congr rfl
    intro y hy
    apply Finset.sum_congr rfl
    intro x hx
    rw [maxWeights_zeroFrame_cell out0 c y x (Finset.mem_range.mp hc) (Finset.mem_range.mp hy)
      (Finset.mem_range.mp hx)]
    unfold maxWeights
    norm_num
  rw [Finset.sum_congr rfl h]
  simp [maxWeights]

/-- C9 (as stated, refuted): with the all-zero image, every convolution weight and every
fully-connected weight equal to `32767` (all of them in range), the pooled map holds `32767`
everywhere, the exact score `32767 + 6272 * 32767 * 32767` is outside the signed 32-bit
range, already the third partial sum is, and the 32-bit score differs from the exact one. -/
theorem fc_overflows_on_in_range_inputs :
    (∀ r s, zeroFrame r s ≤ 255) ∧
    (∀ k, -32768 ≤ maxWeights k ∧ maxWeights k ≤ 32767) ∧
    ¬ inInt32 (fcPrefix (cnnLayer maxWeights zeroFrame zeroMaps) maxWeights 3) ∧
    ¬ inInt32 (fcSpec (cnnLayer maxWeights zeroFrame zeroMaps) maxWeights) ∧
    fc (cnnLayer maxWeights zeroFrame zeroMaps) maxWeights ≠
      fcSpec (cnnLayer maxWeights zeroFrame zeroMaps) maxWeights := by
  refine ⟨fun _ _ => by unfold zeroFrame; omega, fun _ => by unfold maxWeights; omega, ?_, ?_, ?_⟩
  · have h0 := maxWeights_zeroFrame_cell zeroMaps 0 0 0 (by omega) (by omega) (by omega)
    have h1 := maxWeights_zeroFrame_cell zeroMaps 0 0 1 (by omega) (by omega) (by omega)
    have h2 := maxWeights_zeroFrame_cell zeroMaps 0 0 2 (by omega) (by omega) (by omega)
    have e : fcPrefix (cnnLayer maxWeights zeroFrame zeroMaps) maxWeights 3 = 3221028867 := by
      unfold fcPrefix flatPooled
      simp only [Finset.sum_range_succ, Finset.sum_range_zero]
      norm_num
      rw [h0, h1, h2]
      unfold maxWeights
      norm_num
    rw [e]
    unfold inInt32
    omega
  · rw [fcSpec_maxWeights]
    unfold inInt32
    omega
  · rw [fc_eq_wrap32, fcSpec_maxWeights]
    unfold wrap32
    omega

/-- C9 (amended): for a pooled map `p` and a weight vector `W` with
`|W[6272]| + sum over the 6272 elements of |W[i] * p[i]| <= 2^31 - 1`, at every point of
the loops of `fc` the 32-bit `neuron` is the exact partial sum and lies in the signed 32-bit
range, every product lies in that range, and the returned 32-bit score is the exact integer
score `bias + sum of W[i] * p[i]`. -/
theorem fc_exact_of_abs_sum_le (p : FeatureMaps) (W : Nat → Int)
    (hsum : |W 6272| + ∑ k in Finset.range 6272, |W k * flatPooled p k| ≤ 2147483647) :
    (∀ c y x, c < 32 → y < 14 → x ≤ 14 →
      (fcAt p W c y x).1 = fcPrefix p W (196 * c + 14 * y + x) ∧
      (fcAt p W c y x).2 = 196 * c + 14 * y + x ∧
      inInt32 (fcPrefix p W (196 * c + 14 * y + x))) ∧
    (∀ k, k < 6272 → inInt32 (W k * flatPooled p k)) ∧
    inInt32 (fcSpec p W) ∧
    fc p W = fcSpec p W := by
  have hW := abs_nonneg (W 6272)
  have hS : 0 ≤ ∑ k in Finset.range 6272, |W k * flatPooled p k| :=
    Finset.sum_nonneg (fun _ _ => abs_nonneg _)
  have hpre : ∀ n, n ≤ 6272 → inInt32 (fcPrefix p W n) := by
    intro n hn
    apply inInt32_of_abs_le
    have := abs_fcPrefix_le p W n hn
    linarith
  have hfin : inInt32 (fcSpec p W) := by
    rw [fcSpec_eq_fcPrefix]
    apply inInt32_of_abs_le
    have h1 := abs_add (W 6272) (fcPrefix p W 6272)
    have h2 := abs_fcPrefix_le p W 6272 (le_refl _)
    linarith
  refine ⟨?_, ?_, hfin, ?_⟩
  · intro c y x hc hy hx
    rw [fcAt_state p W c y x hy hx]
    have hin := hpre (196 * c + 14 * y + x) (by omega)
    exact ⟨wrap32_of_inInt32 hin, rfl, hin⟩
  · intro k hk
    apply inInt32_of_abs_le
    have := abs_fcTerm_le p W k hk
    linarith
  · rw [fc_eq_wrap32]
    exact wrap32_of_inInt32 hfin

/-- C9 (amended), instance: pooled values and weights all equal to `1`. -/
theorem fc_exact_of_abs_sum_le_witness :
    fc unitMaps unitWeights = fcSpec unitMaps unitWeights :=
  (fc_exact_of_abs_sum_le unitMaps unitWeights
    (by simp [unitMaps, unitWeights, flatPooled])).2.2.2

end CNN

/-! ## The argmax decision -/

namespace CNN

/-- After `n` passes of the argmax loop either no score has exceeded the sentinel and the
state is the initial one, or the state holds the first index of the greatest score so far,
which exceeds the sentinel. -/
theorem argmax_invariant (sentinel : Int) (score : Nat → Int) (n : Nat) (hn : n ≤ 256) :
    ((∀ j, j < n → score j ≤ sentinel) ∧
      forLoop n (fun j s => argmaxStep score j s) (sentinel, 0) = (sentinel, 0)) ∨
    ((forLoop n (fun j s => argmaxStep score j s) (sentinel, 0)).2 < n ∧
      (forLoop n (fun j s => argmaxStep score j s) (sentinel, 0)).1 =
        score (forLoop n (fun j s => argmaxStep score j s) (sentinel, 0)).2 ∧
      sentinel < (forLoop n (fun j s => argmaxStep score j s) (sentinel, 0)).1 ∧
      (∀ j, j < n → score j ≤ (forLoop n (fun j s => argmaxStep score j s) (sentinel, 0)).1) ∧
      (∀ j, j < (forLoop n (fun j s => argmaxStep score j s) (sentinel, 0)).2 →
        score j < (forLoop n (fun j s => argmaxStep score j s) (sentinel, 0)).1)) := by
  induction n with
  | zero => left; exact ⟨fun j hj => absurd hj (Nat.not_lt_zero j), rfl⟩
  | succ k ih =>
    have hmod : k % 256 = k := Nat.mod_eq_of_lt (by omega)
    rw [forLoop_succ]
    generalize forLoop k (fun j s => argmaxStep score j s) (sentinel, 0) = st at ih ⊢
    unfold argmaxStep
    rw [hmod]
    rcases ih (by omega) with ⟨hall, hst⟩ | ⟨hlt, hval, hgt, hmax, hfirst⟩
    · have h1 : st.1 = sentinel := by rw [hst]
      by_cases hs : score k > st.1
      · right
        rw [if_pos hs]
        refine ⟨Nat.lt_succ_self k, rfl, by show sentinel < score k; omega, ?_, ?_⟩
        · intro j hj
          show score j ≤ score k
          rcases Nat.lt_succ_iff_lt_or_eq.mp hj with h | h
          · have := hall j h; omega
          · subst h; exact le_refl _
        · intro j hj
          show score j < score k
          have := hall j hj; omega
      · left
        rw [if_neg hs]
        refine ⟨?_, hst⟩
        intro j hj
        rcases Nat.lt_succ_iff_lt_or_eq.mp hj with h | h
        · exact hall j h
        · subst h; omega
    · right
      by_cases hs : score k > st.1
      · rw [if_pos hs]
        refine ⟨Nat.lt_succ_self k, rfl, by show sentinel < score k; omega, ?_, ?_⟩
        · intro j hj
          show score j ≤ score k
          rcases Nat.lt_succ_iff_lt_or_eq.mp hj with h | h
          · have := hmax j h; omega
          · subst h; exact le_refl _
        · intro j hj
          show score j < score k
          have := hmax j hj; omega
      · rw [if_neg hs]
        refine ⟨Nat.lt_succ_of_lt hlt, hval, hgt, ?_, hfirst⟩
        intro j hj
        rcases Nat.lt_succ_iff_lt_or_eq.mp hj with h | h
        · exact hmax j h
        · subst h; omega

/-- C2: when the sentinel is strictly lower than each of the ten scores, the argmax loop
returns a digit `d` in `[0, 9]` whose score is at least every score and strictly above the
score of every lower digit: the maximum, and on a tie the lowest index among the maxima. -/
theorem argmaxLoop_max_of_low_sentinel (sentinel : Int) (score : Nat → Int)
    (hS : ∀ j, j < 10 → sentinel < score j) :
    argmaxLoop sentinel score < 10 ∧
    (∀ j, j < 10 → score j ≤ score (argmaxLoop sentinel score)) ∧
    (∀ j, j < argmaxLoop sentinel score → score j < score (argmaxLoop sentinel score)) := by
  unfold argmaxLoop
  simp only [NUM_DIGITS]
  rcases argmax_invariant sentinel score 10 (by omega) with ⟨hall, _⟩ | ⟨hlt, hval, _, hmax, hfirst⟩
  · have h1 := hall 0 (by omega)
    have h2 := hS 0 (by omega)
    omega
  · rw [← hval]
    exact ⟨hlt, hmax, hfirst⟩

/-- C2, instance: with sentinel `-100` and the scores `tiedScores` (digits 3 and 7 tied at
the maximum) the result has the maximum score and no lower digit reaches it. -/
theorem argmaxLoop_max_of_low_sentinel_witness :
    argmaxLoop (-100) tiedScores < 10 ∧
    (∀ j, j < 10 → tiedScores j ≤ tiedScores (argmaxLoop (-100) tiedScores)) ∧
    (∀ j, j < argmaxLoop (-100) tiedScores →
      tiedScores j < tiedScores (argmaxLoop (-100) tiedScores)) :=
  argmaxLoop_max_of_low_sentinel (-100) tiedScores
    (fun j _ => by unfold tiedScores; split_ifs <;> omega)

/-- C10: for any sentinel the argmax loop returns a digit in `[0, 9]`; when some score is
strictly greater than the sentinel it is the lowest index attaining the maximum score; when
no score is strictly greater than the sentinel it is digit 0, whatever the scores. -/
theorem argmaxLoop_any_sentinel (sentinel : Int) (score : Nat → Int) :
    argmaxLoop sentinel score < 10 ∧
    ((∃ j, j < 10 ∧ sentinel < score j) →
      (∀ j, j < 10 → score j ≤ score (argmaxLoop sentinel score)) ∧
      (∀ j, j < argmaxLoop sentinel score → score j < score (argmaxLoop sentinel score))) ∧
    ((∀ j, j < 10 → score j ≤ sentinel) → argmaxLoop sentinel score = 0) := by
  unfold argmaxLoop
  simp only [NUM_DIGITS]
  rcases argmax_invariant sentinel score 10 (by omega) with ⟨hall, hst⟩ | ⟨hlt, hval, hgt, hmax, hfirst⟩
  · rw [hst]
    refine ⟨by omega, ?_, fun _ => rfl⟩
    rintro ⟨j, hj, hgt⟩
    have := hall j hj
    omega
  · refine ⟨hlt, ?_, ?_⟩
    · intro _
      rw [← hval]
      exact ⟨hmax, hfirst⟩
    · intro hall
      have h1 := hmax _ hlt
      have h2 := hall _ hlt
      rw [← hval] at h2
      omega

/-- C10, instance: with sentinel `5`, which no score of `tiedScores` exceeds, the result is
digit 0. -/
theorem argmaxLoop_any_sentinel_witness : argmaxLoop 5 tiedScores = 0 :=
  (argmaxLoop_any_sentinel 5 tiedScores).2.2
    (fun j _ => by unfold tiedScores; split_ifs <;> omega)

end CNN

/-! ## The reference program: setup status and tally -/

namespace CNN

theorem forWhile_cond_false {σ : Type} (i0 n : Nat) (cond : σ → Bool) (body : Nat → σ → σ) (s : σ)
    (h : cond s = false) : forWhile i0 n cond body s = s := by
  cases n with
  | zero => rfl
  | succ k => simp [forWhile, h]

/-- The status loop over the weight files ends true exactly when it started true and every
file was read. -/
theorem readLoop_eq_true (f : Nat → Bool) (n i0 : Nat) (st : Bool) :
    forWhile i0 n (fun b => b) (fun i b => b && f i) st = true ↔
      st = true ∧ ∀ i, i < n → f (i0 + i) = true := by
  induction n generalizing i0 st with
  | zero => simp [forWhile]
  | succ k ih =>
    unfold forWhile
    cases st with
    | false => simp
    | true =>
      simp only [if_true, Bool.true_and, true_and]
      rw [ih]
      constructor
      · rintro ⟨h0, hrest⟩ i hi
        rcases Nat.eq_zero_or_pos i with h | h
        · subst h; simpa using h0
        · have := hrest (i - 1) (by omega)
          have e : i0 + 1 + (i - 1) = i0 + i := by omega
          rwa [e] at this
      · intro h
        refine ⟨by simpa using h 0 (by omega), fun i hi => ?_⟩
        have := h (i + 1) (by omega)
        have e : i0 + 1 + i = i0 + (i + 1) := by omega
        rwa [e]

theorem setupStatus_eq_true (L : Loaders) :
    setupStatus L = true ↔
      0 < L.n_items ∧ L.n_labels = L.n_items ∧ (∀ i, i < 10 → L.fcRead i = true) ∧
        L.cnnRead = true := by
  unfold setupStatus
  simp only [NUM_DIGITS, Bool.and_eq_true, readLoop_eq_true, Nat.zero_add]
  constructor
  · rintro ⟨⟨h1, h2⟩, h3⟩
    by_cases hn : L.n_items ≤ 0
    · simp [hn] at h1
    · by_cases hl : L.n_items = L.n_labels
      · exact ⟨by omega, hl.symm, h2, h3⟩
      · simp [hn, hl] at h1
  · rintro ⟨h1, h2, h3, h4⟩
    have hn : ¬ L.n_items ≤ 0 := by omega
    refine ⟨⟨?_, h3⟩, h4⟩
    simp [hn, h2]

/-- With the status true the prediction loop counts one tested item per pass. -/
theorem predictLoop_items_tested (sentinel : Int) (L : Loaders) (frame0 : Nat → Nat → Nat)
    (out0 : FeatureMaps) (n i0 : Nat) (s : PredState)
    (h0 : 0 ≤ s.items_tested) (hn : s.items_tested + n ≤ 2147483647) :
    (forWhile i0 n (fun _ => true) (fun i t => predictStep sentinel L frame0 out0 i t) s).items_tested
      = s.items_tested + n := by
  induction n generalizing i0 s with
  | zero => simp [forWhile]
  | succ k ih =>
    unfold forWhile
    simp only [if_true]
    have hstep : (predictStep sentinel L frame0 out0 i0 s).items_tested = s.items_tested + 1 := by
      show wrap32 (s.items_tested + 1) = s.items_tested + 1
      apply wrap32_of_inInt32
      unfold inInt32
      push_cast at hn
      omega
    rw [ih (i0 + 1) _ (by rw [hstep]; omega) (by rw [hstep]; push_cast at hn ⊢; omega), hstep]
    push_cast
    ring

/-- C7: in the reference `classify`, if the image loader returns a count `<= 0`, or the
label count differs from the image count, or a weight file read fails, the prediction loop
makes no pass: `pixel`, `n_correct` and `items_tested` keep their initial value `0`; when
every setup step succeeds, `items_tested = n_items`. -/
theorem classify_tally (sentinel : Int) (L : Loaders) (frame0 : Nat → Nat → Nat)
    (out0 : FeatureMaps) (hint : L.n_items ≤ 2147483647) :
    ((L.n_items ≤ 0 ∨ L.n_labels ≠ L.n_items ∨ (∃ i, i < 10 ∧ L.fcRead i = false) ∨
        L.cnnRead = false) →
      classify sentinel L frame0 out0 = { pixel := 0, n_correct := 0, items_tested := 0 }) ∧
    ((0 < L.n_items ∧ L.n_labels = L.n_items ∧ (∀ i, i < 10 → L.fcRead i = true) ∧
        L.cnnRead = true) →
      (classify sentinel L frame0 out0).items_tested = L.n_items) := by
  constructor
  · intro hfail
    have hst : setupStatus L = false := by
      rw [← Bool.not_eq_true, setupStatus_eq_true]
      rintro ⟨h1, h2, h3, h4⟩
      rcases hfail with h | h | ⟨i, hi, h⟩ | h
      · omega
      · exact h h2
      · rw [h3 i hi] at h; exact Bool.noConfusion h
      · rw [h4] at h; exact Bool.noConfusion h
    unfold classify
    exact forWhile_cond_false _ _ _ _ _ hst
  · intro hok
    have hst : setupStatus L = true := (setupStatus_eq_true L).mpr hok
    unfold classify
    rw [hst, predictLoop_items_tested sentinel L frame0 out0 _ 0 _ (le_refl _)
      (by show (0 : Int) + (L.n_items.toNat : Int) ≤ 2147483647; omega)]
    show (0 : Int) + (L.n_items.toNat : Int) = L.n_items
    omega

end CNN

/-! ## The accelerator-offloaded program: batches and tally -/

namespace Offload

open CNN

theorem offsets_exact (batch_size : Int) (k : Nat) (hbs : 0 ≤ batch_size)
    (hoff : (k : Int) * batch_size * 784 ≤ 2147483647) :
    inputOffset batch_size k = 784 * ((k : Int) * batch_size) ∧
      outputOffset batch_size k = (k : Int) * batch_size := by
  have hm0 : 0 ≤ (k : Int) * batch_size := mul_nonneg (Int.ofNat_nonneg k) hbs
  unfold inputOffset outputOffset
  simp only [INPUT_DIM]
  generalize (k : Int) * batch_size = m at hm0 hoff ⊢
  unfold wrap32
  push_cast
  omega

theorem imageAt_shift (input_images : Int → Nat) (m a : Int) :
    imageAt (fun j => input_images (784 * m + j)) (a - m) = imageAt input_images a := by
  funext p
  unfold imageAt
  simp only [INPUT_DIM]
  split_ifs
  · congr 1
    push_cast
    ring
  · rfl

/-- Batch `k` stores at positions `k*batch_size .. (k+1)*batch_size - 1` of `output_guesses`
the guesses for the images of the same numbers, and leaves the other positions alone. -/
theorem batchStep_apply (guess : (Nat → Nat) → Nat) (input_images : Int → Nat) (batch_size : Int)
    (k : Nat) (out : Int → Nat) (a : Int) (hbs : 0 ≤ batch_size)
    (hoff : (k : Int) * batch_size * 784 ≤ 2147483647) :
    batchStep guess input_images batch_size k out a =
      if (k : Int) * batch_size ≤ a ∧ a < (k : Int) * batch_size + batch_size then
        guess (imageAt input_images a)
      else out a := by
  obtain ⟨h1, h2⟩ := offsets_exact batch_size k hbs hoff
  unfold batchStep runKernels
  simp only [h1, h2, imageAt_shift]

theorem classify_after_batches (guess : (Nat → Nat) → Nat) (input_images : Int → Nat) (batch_size : Int)
    (out0 : Int → Nat) (n : Nat) (hbs : 0 ≤ batch_size)
    (hoff : ∀ k : Nat, k < n → (k : Int) * batch_size * 784 ≤ 2147483647) (a : Int) :
    forLoop n (fun nth_batch out => batchStep guess input_images batch_size nth_batch out) out0 a =
      if 0 ≤ a ∧ a < (n : Int) * batch_size then guess (imageAt input_images a) else out0 a := by
  induction n with
  | zero =>
    have : ¬ (0 ≤ a ∧ a < ((0 : Nat) : Int) * batch_size) := by
      push_cast; omega
    rw [if_neg this]; rfl
  | succ k ih =>
    rw [forLoop_succ, batchStep_apply guess input_images batch_size k _ a hbs
      (hoff k (Nat.lt_succ_self k)), ih (fun j hj => hoff j (Nat.lt_succ_of_lt hj))]
    have hm0 : 0 ≤ (k : Int) * batch_size := mul_nonneg (Int.ofNat_nonneg k) hbs
    have e : ((k + 1 : Nat) : Int) * batch_size = (k : Int) * batch_size + batch_size := by
      push_cast; ring
    rw [e]
    generalize (k : Int) * batch_size = m at hm0 ⊢
    split_ifs <;> first | rfl | omega

theorem tally_loop_eq_card (output_guesses reference_guesses : Int → Nat) (n : Nat)
    (hn : n ≤ 2147483647) :
    forLoop n (fun i correct =>
        if output_guesses i = reference_guesses i then wrap32 (correct + 1) else correct) 0 =
      (((Finset.range n).filter
        (fun i : Nat => output_guesses (i : Int) = reference_guesses (i : Int))).card : Int) := by
  induction n with
  | zero => rfl
  | succ k ih =>
    rw [forLoop_succ, ih (by omega), Finset.range_succ, Finset.filter_insert]
    have hcard : ((Finset.range k).filter
        (fun i : Nat => output_guesses (i : Int) = reference_guesses (i : Int))).card ≤ k :=
      le_trans (Finset.card_filter_le _ _) (by simp)
    split_ifs with h
    · rw [Finset.card_insert_of_not_mem (by simp)]
      push_cast
      apply wrap32_of_inInt32
      unfold inInt32
      omega
    · rfl

theorem readLoop_all_true (f : Nat → Bool) (n i0 : Nat) (h : ∀ i, i < n → f (i0 + i) = true) :
    forWhile i0 n (fun ok => ok) (fun i _ => f i) true = true := by
  induction n generalizing i0 with
  | zero => rfl
  | succ k ih =>
    unfold forWhile
    simp only [if_true]
    have h0 : f i0 = true := by simpa using h 0 (by omega)
    rw [h0]
    apply ih
    intro i hi
    have := h (i + 1) (by omega)
    have e : i0 + 1 + i = i0 + (i + 1) := by omega
    rwa [e]

/-- The report of `main` in closed form, when setup succeeds, the batch geometry leaves
images out and the input offsets fit an `int`. -/
theorem mainRun_closed_form (guess : (Nat → Nat) → Nat) (cfg : Config) (out0 : Int → Nat)
    (hbs : 0 ≤ cfg.batch_size) (hb : 0 ≤ cfg.batches)
    (hlt : cfg.batch_size * cfg.batches < cfg.n_items) (hint : cfg.n_items ≤ 2147483647)
    (hlab : cfg.n_labels = cfg.n_items) (hfc : ∀ i, i < 10 → cfg.fcRead i = true)
    (hcnn : cfg.cnnRead = true)
    (hoff : (cfg.batches - 1) * cfg.batch_size * 784 ≤ 2147483647) :
    (∀ a, classify guess cfg.input_images cfg.batch_size cfg.batches out0 a =
      if 0 ≤ a ∧ a < cfg.batch_size * cfg.batches then guess (imageAt cfg.input_images a)
      else out0 a) ∧
    mainRun guess cfg out0 = some
      { correct := (((Finset.range (cfg.batch_size * cfg.batches).toNat).filter
          (fun i : Nat => guess (imageAt cfg.input_images (i : Int)) =
            cfg.reference_guesses (i : Int))).card : Int)
        total := cfg.batch_size * cfg.batches
        warned := true } := by
  have hprod0 : 0 ≤ cfg.batch_size * cfg.batches := mul_nonneg hbs hb
  have hoffk : ∀ k : Nat, k < cfg.batches.toNat → (k : Int) * cfg.batch_size * 784 ≤ 2147483647 := by
    intro k hk
    have h1 : (k : Int) ≤ cfg.batches - 1 := by omega
    have h2 : (k : Int) * cfg.batch_size ≤ (cfg.batches - 1) * cfg.batch_size :=
      mul_le_mul_of_nonneg_right h1 hbs
    linarith
  have hcls : ∀ a, classify guess cfg.input_images cfg.batch_size cfg.batches out0 a =
      if 0 ≤ a ∧ a < cfg.batch_size * cfg.batches then guess (imageAt cfg.input_images a)
      else out0 a := by
    intro a
    unfold classify
    rw [classify_after_batches guess cfg.input_images cfg.batch_size out0 _ hbs hoffk a,
      Int.toNat_of_nonneg hb, mul_comm cfg.batches cfg.batch_size]
  refine ⟨hcls, ?_⟩
  have hw : wrap32 (cfg.batch_size * cfg.batches) = cfg.batch_size * cfg.batches :=
    wrap32_of_inInt32 ⟨by omega, by omega⟩
  have hN : (cfg.batch_size * cfg.batches % 4294967296).toNat
      = (cfg.batch_size * cfg.batches).toNat := by
    congr 1
    exact Int.emod_eq_of_lt hprod0 (by omega)
  unfold mainRun
  rw [if_neg (by omega), if_neg (by rw [hlab]; exact fun h => h rfl),
    if_neg (by
      rw [readLoop_all_true cfg.fcRead NUM_DIGITS 0 (fun i hi => by
        rw [Nat.zero_add]; exact hfc i hi)]
      exact Bool.noConfusion),
    if_neg (by rw [hcnn]; exact Bool.noConfusion)]
  simp only [hw]
  congr 1
  have hwarn : decide (cfg.n_items ≠ cfg.batch_size * cfg.batches) = true := by
    apply decide_eq_true
    omega
  rw [hwarn]
  congr 1
  unfold tally
  rw [hw, hN, tally_loop_eq_card _ _ _ (by omega)]
  congr 2
  apply Finset.filter_congr
  intro i hi
  have hi' := Finset.mem_range.mp hi
  rw [hcls (i : Int), if_pos ⟨Int.ofNat_nonneg i, by omega⟩]

/-- C6 (as stated, refuted): with `batch_size = 3000000`, `batches = 2` and
`n_items = 6000001` (so `batch_size*batches < n_items`, all non-negative `int` values), the
`int` offset `nth_batch*batch_size*28*28` of batch 1 overflows: batch 1 does not read from
image `3000000`, and the guess stored at position `3000000` is not the guess for image
`3000000`. -/
theorem offload_large_batch_misreads :
    (3000000 : Int) * 2 < 6000001 ∧ (6000001 : Int) ≤ 2147483647 ∧
    inputOffset 3000000 1 ≠ 784 * (1 * 3000000) ∧
    classify firstPixel onesFromBase 3000000 2 (fun _ => 0) 3000000 ≠
      firstPixel (imageAt onesFromBase 3000000) := by
  refine ⟨by decide, by decide, by decide, by decide⟩

/-- C6 (amended): in the offloaded program, with the offload a function giving one guess per
image of a batch in image order, for non-negative `batch_size` and `batches` with
`batch_size*batches < n_items`, successful setup, and `(batches-1)*batch_size*784` within the
signed 32-bit range: batch `k` reads from image `k*batch_size` on and stores the guesses for
images `k*batch_size .. (k+1)*batch_size-1` at the same positions of `output_guesses`,
leaving the others alone; after the batch loop exactly the positions below
`batch_size*batches` hold the guess for the image of that number; `main` reports `correct` =
the number of `i < batch_size*batches` whose guess equals `reference_guesses[i]`, out of
`batch_size*batches`, with the warning; and images, labels and prior `output_guesses`
content of index `>= batch_size*batches` do not influence the report. -/
theorem offload_batches_and_tally (guess : (Nat → Nat) → Nat) (cfg : Config) (out0 : Int → Nat)
    (hbs : 0 ≤ cfg.batch_size) (hb : 0 ≤ cfg.batches)
    (hlt : cfg.batch_size * cfg.batches < cfg.n_items) (hint : cfg.n_items ≤ 2147483647)
    (hlab : cfg.n_labels = cfg.n_items) (hfc : ∀ i, i < 10 → cfg.fcRead i = true)
    (hcnn : cfg.cnnRead = true)
    (hoff : (cfg.batches - 1) * cfg.batch_size * 784 ≤ 2147483647) :
    (∀ k : Nat, (k : Int) < cfg.batches →
      inputOffset cfg.batch_size k = 784 * ((k : Int) * cfg.batch_size) ∧
      outputOffset cfg.batch_size k = (k : Int) * cfg.batch_size ∧
      ∀ (out : Int → Nat) (a : Int),
        batchStep guess cfg.input_images cfg.batch_size k out a =
          if (k : Int) * cfg.batch_size ≤ a ∧ a < ((k : Int) + 1) * cfg.batch_size then
            guess (imageAt cfg.input_images a)
          else out a) ∧
    (∀ a, classify guess cfg.input_images cfg.batch_size cfg.batches out0 a =
      if 0 ≤ a ∧ a < cfg.batch_size * cfg.batches then guess (imageAt cfg.input_images a)
      else out0 a) ∧
    mainRun guess cfg out0 = some
      { correct := (((Finset.range (cfg.batch_size * cfg.batches).toNat).filter
          (fun i : Nat => guess (imageAt cfg.input_images (i : Int)) =
            cfg.reference_guesses (i : Int))).card : Int)
        total := cfg.batch_size * cfg.batches
        warned := true } ∧
    (∀ (images2 labels2 out2 : Int → Nat),
      (∀ (i : Int) (q : Nat), 0 ≤ i → i < cfg.batch_size * cfg.batches → q < 784 →
        images2 (784 * i + q) = cfg.input_images (784 * i + q)) →
      (∀ i : Int, 0 ≤ i → i < cfg.batch_size * cfg.batches →
        labels2 i = cfg.reference_guesses i) →
      mainRun guess { cfg with input_images := images2, reference_guesses := labels2 } out2 =
        mainRun guess cfg out0) := by
  have hprod0 : 0 ≤ cfg.batch_size * cfg.batches := mul_nonneg hbs hb
  obtain ⟨hcls, hmain⟩ := mainRun_closed_form guess cfg out0 hbs hb hlt hint hlab hfc hcnn hoff
  refine ⟨?_, hcls, hmain, ?_⟩
  · intro k hk
    have h1 : (k : Int) ≤ cfg.batches - 1 := by omega
    have h2 : (k : Int) * cfg.batch_size ≤ (cfg.batches - 1) * cfg.batch_size :=
      mul_le_mul_of_nonneg_right h1 hbs
    have h3 : (k : Int) * cfg.batch_size * 784 ≤ 2147483647 := by linarith
    obtain ⟨e1, e2⟩ := offsets_exact cfg.batch_size k hbs h3
    refine ⟨e1, e2, fun out a => ?_⟩
    rw [batchStep_apply guess cfg.input_images cfg.batch_size k out a hbs h3]
    have e : ((k : Int) + 1) * cfg.batch_size = (k : Int) * cfg.batch_size + cfg.batch_size := by
      ring
    rw [e]
  · intro images2 labels2 out2 him hlb
    have h2 := (mainRun_closed_form guess
      { cfg with input_images := images2, reference_guesses := labels2 } out2
      hbs hb hlt hint hlab hfc hcnn hoff).2
    dsimp only at h2
    have hfilter : (Finset.range (cfg.batch_size * cfg.batches).toNat).filter
          (fun i : Nat => guess (imageAt images2 (i : Int)) = labels2 (i : Int)) =
        (Finset.range (cfg.batch_size * cfg.batches).toNat).filter
          (fun i : Nat => guess (imageAt cfg.input_images (i : Int)) =
            cfg.reference_guesses (i : Int)) := by
      apply Finset.filter_congr
      intro i hi
      have hi' := Finset.mem_range.mp hi
      have hi2 : (i : Int) < cfg.batch_size * cfg.batches := by omega
      have himg : imageAt images2 (i : Int) = imageAt cfg.input_images (i : Int) := by
        funext q
        unfold imageAt
        simp only [INPUT_DIM]
        split_ifs with hq
        · exact him (i : Int) q (Int.ofNat_nonneg i) hi2 hq
        · rfl
      rw [himg, hlb (i : Int) (Int.ofNat_nonneg i) hi2]
    rw [h2, hmain, hfilter]

/-- C6 (amended), instance: ten images, three batches of two; six images are classified
and reported out of six. -/
theorem offload_batches_and_tally_witness :
    mainRun firstPixel smallConfig (fun _ => 0) =
      some { correct := 6, total := 6, warned := true } := by
  have h := (offload_batches_and_tally firstPixel smallConfig (fun _ => 0)
    (by decide) (by decide) (by decide) (by decide) rfl (fun _ _ => rfl) rfl (by decide)).2.2.1
  rw [h]
  decide

end Offload

/-! ## Instances on concrete inputs -/

namespace CNN

/-- C1, instance: image and weights all equal to `1`, cell `(0, 0, 0)`. -/
theorem cnnLayer_eq_pooledSpec_witness :
    cnnLayer unitWeights unitFrame zeroMaps 0 0 0 = pooledSpec unitWeights unitFrame 0 0 0 :=
  cnnLayer_eq_pooledSpec unitWeights unitFrame zeroMaps 0 0 0
    (fun _ _ _ _ => by unfold unitFrame; omega) (fun _ _ => by unfold unitWeights; omega)
    (by omega) (by omega) (by omega)

/-- C4, instance: image and weights all equal to `1`, the last cell `(31, 13, 13)`. -/
theorem cnnLayer_nonneg_witness : 0 ≤ cnnLayer unitWeights unitFrame zeroMaps 31 13 13 :=
  cnnLayer_nonneg unitWeights unitFrame zeroMaps 31 13 13 (by omega) (by omega) (by omega)

/-- C5, instance: the all-zero image with weights all equal to `1`, cell `(0, 0, 0)`. -/
theorem cnnLayer_zero_image_witness :
    cnnLayer unitWeights (fun _ _ => 0) zeroMaps 0 0 0 = max 0 (unitWeights (26 * 0 + 25)) :=
  (cnnLayer_zero_image unitWeights zeroMaps 0 0 0 (fun _ _ => by unfold unitWeights; omega)
    (by omega) (by omega) (by omega)).1

/-- C8, instance: image and weights all equal to `1`, pixel `(0, 0)` of feature 0, after
all 25 taps. -/
theorem accumAt_exact_and_bounded_witness :
    accumAt unitWeights unitFrame 0 0 0 4 5 = tapPrefix unitWeights unitFrame 0 0 0 4 5 ∧
    |accumAt unitWeights unitFrame 0 0 0 4 5| ≤ 208928768 :=
  have h := accumAt_exact_and_bounded unitWeights unitFrame 0 0 0 4 5
    (fun _ _ _ _ => by unfold unitFrame; omega) (fun _ _ => by unfold unitWeights; omega)
    (by omega) (by omega) (by omega)
  ⟨h.1, h.2.1⟩

/-- C7, instance: the empty corpus leaves the tally at zero; a corpus of three items with
successful setup tests three items. -/
theorem classify_tally_witness :
    classify 0 emptyCorpus zeroFrame zeroMaps = { pixel := 0, n_correct := 0, items_tested := 0 } ∧
    (classify 0 threeItemCorpus zeroFrame zeroMaps).items_tested = 3 :=
  ⟨(classify_tally 0 emptyCorpus zeroFrame zeroMaps (by decide)).1 (Or.inl (by decide)),
   (classify_tally 0 threeItemCorpus zeroFrame zeroMaps (by decide)).2
     ⟨by decide, rfl, fun _ _ => rfl, rfl⟩⟩

end CNN
